import Mathlib

set_option maxHeartbeats 1000000

/-!
Verification development for the quiz-solver service (`index.js` and its
variant source files).  The JavaScript sources are shallowly embedded as
executable Lean definitions: strings are processed as `List Char`, JS
numbers appearing in the CSV pipeline are modelled by `JsVal` (an integer,
`NaN`, a string, or `null`), and JS builtins (`parseInt`, `new Date`,
`JSON.parse`, `Buffer`, base64) are modelled by executable functions whose
doc comments record the modelled subset.  Network and browser effects are
represented by explicit data (the would-be request) so that the pure
decision logic of the source can be proved about.
-/

/-! ## ASCII character classes (model of the JS character classes used by the sources) -/

/-- Whitespace class `\s` of JS regexes and `String.prototype.trim`,
restricted to its ASCII members (space, tab, LF, CR, VT, FF). -/
def isJsWs (c : Char) : Bool :=
  c.toNat = 32 || c.toNat = 9 || c.toNat = 10 || c.toNat = 13 || c.toNat = 11 || c.toNat = 12

/-- Digit class `\d` (= `[0-9]`) of JS regexes. -/
def isAsciiDigit (c : Char) : Bool := 48 ≤ c.toNat && c.toNat ≤ 57

def isAsciiLower (c : Char) : Bool := 97 ≤ c.toNat && c.toNat ≤ 122

def isAsciiUpper (c : Char) : Bool := 65 ≤ c.toNat && c.toNat ≤ 90

/-- Letter class `[a-z]` under the `i` flag, i.e. `[a-zA-Z]`. -/
def isAsciiLetter (c : Char) : Bool := isAsciiLower c || isAsciiUpper c

/-- Class `[a-z0-9]` under the `i` flag (used by the snake-casing replace). -/
def isAsciiAlnum (c : Char) : Bool := isAsciiLetter c || isAsciiDigit c

/-- ASCII model of `String.prototype.toLowerCase`. -/
def jsLowerChar (c : Char) : Char := if isAsciiUpper c then Char.ofNat (c.toNat + 32) else c

def jsLower (s : String) : String := String.mk (s.data.map jsLowerChar)

def jsTrimL (l : List Char) : List Char :=
  ((l.dropWhile isJsWs).reverse.dropWhile isJsWs).reverse

/-- ASCII model of `String.prototype.trim`. -/
def jsTrim (s : String) : String := String.mk (jsTrimL s.data)

/-- Does `l` start with `pre`? (model of a regex/`startsWith` anchor). -/
def listStartsWith : List Char → List Char → Bool
  | [], _ => true
  | _ :: _, [] => false
  | a :: as, b :: bs => a = b && listStartsWith as bs

/-- Does `l` contain `sub` as a contiguous substring?  Models
`/sub/.test(l)` for a literal pattern `sub`. -/
def listContainsSub (sub : List Char) : List Char → Bool
  | [] => listStartsWith sub []
  | c :: t => listStartsWith sub (c :: t) || listContainsSub sub t

/-- `strContains s sub` models `/sub/.test(s)` for a literal lowercase
pattern `sub` applied to an already lowercased `s`. -/
def strContains (s sub : String) : Bool := listContainsSub sub.data s.data

/-! ## JS `parseInt` model -/

/-- Values flowing through the CSV cell-coercion pipeline: a JS string,
an integral JS number, `NaN`, or `null`. -/
inductive JsVal where
  | str (s : String)
  | num (n : Int)
  | nan
  | null
deriving DecidableEq, Repr

def isNumVal : JsVal → Bool
  | .num _ => true
  | _ => false

def digitVal (c : Char) : Nat := c.toNat - 48

def decDigitsVal (l : List Char) : Nat := l.foldl (fun a c => a * 10 + digitVal c) 0

def isHexDigit (c : Char) : Bool :=
  isAsciiDigit c || (97 ≤ c.toNat && c.toNat ≤ 102) || (65 ≤ c.toNat && c.toNat ≤ 70)

def hexDigitVal (c : Char) : Nat :=
  if isAsciiDigit c then c.toNat - 48
  else if 97 ≤ c.toNat && c.toNat ≤ 102 then c.toNat - 87
  else c.toNat - 55

def hexDigitsVal (l : List Char) : Nat := l.foldl (fun a c => a * 16 + hexDigitVal c) 0

/-- Longest decimal-digit prefix, `none` when there is none. -/
def parseDecPre (l : List Char) : Option Nat :=
  let ds := l.takeWhile isAsciiDigit
  if ds.isEmpty then none else some (decDigitsVal ds)

def parseHexPre (l : List Char) : Option Nat :=
  let ds := l.takeWhile isHexDigit
  if ds.isEmpty then none else some (hexDigitsVal ds)

/-- Unsigned part of `parseInt`: a `0x`/`0X` prefix switches to base 16,
otherwise the longest decimal-digit prefix is read. -/
def parseMagnitude : List Char → Option Nat
  | '0' :: c :: rest =>
    if c = 'x' || c = 'X' then parseHexPre rest else parseDecPre ('0' :: c :: rest)
  | l => parseDecPre l

/-- Model of the JS builtin `parseInt` (no radix argument): skip leading
whitespace, read an optional sign, then a hex (`0x…`) or decimal digit
prefix; `none` models the `NaN` result when no digit is found.  The JS
result is a double: exact only for magnitudes below `2^53`, rounded above
that, and `Infinity` once the digit prefix reaches about 309 digits.  The
model returns the exact integer, so theorems that depend on the parsed
value restrict the relevant cells to magnitudes below `2^53`, where the
two agree. -/
def jsParseInt (l : List Char) : Option Int :=
  match l.dropWhile isJsWs with
  | '-' :: rest => (parseMagnitude rest).map (fun n => -(n : Int))
  | '+' :: rest => (parseMagnitude rest).map (fun n => (n : Int))
  | l2 => (parseMagnitude l2).map (fun n => (n : Int))

/-- `parseInt` on a string cell, as a `JsVal` (`nan` for the NaN result). -/
def jsParseIntVal (s : String) : JsVal :=
  match jsParseInt s.data with
  | some n => .num n
  | none => .nan

/-- Model of JS `String(v)` for the values the CSV pipeline produces. -/
def jsValToString : JsVal → String
  | .str s => s
  | .num n => toString n
  | .nan => "NaN"
  | .null => "null"

/-- Model of `x || 0` applied to a `parseInt` result (NaN and 0 are falsy). -/
def jsOrZero : JsVal → JsVal
  | .num n => .num n
  | _ => .num 0

/-! ## JS `Date` model (the `isoDate` helper of the sources) -/

/-- Civil date from a day count relative to 1970-01-01 (proleptic
Gregorian), the standard era-based algorithm; models the UTC calendar
arithmetic behind `Date#getFullYear/getMonth/getDate` in a UTC zone. -/
def civilFromDays (z0 : Int) : Int × Nat × Nat :=
  let z := z0 + 719468
  let era := z.fdiv 146097
  let doe := (z - era * 146097).toNat
  let yoe := (doe - doe / 1460 + doe / 36524 - doe / 146096) / 365
  let y : Int := (yoe : Int) + era * 400
  let doy := doe - (365 * yoe + yoe / 4 - yoe / 100)
  let mp := (5 * doy + 2) / 153
  let d := doy - (153 * mp + 2) / 5 + 1
  let m := if mp < 10 then mp + 3 else mp - 9
  (if m ≤ 2 then y + 1 else y, m, d)

/-- Decimal digit characters of a natural number (the digit sequence JS
number-to-string conversion produces for integers). -/
def natDigits (n : Nat) : List Char :=
  if h : n < 10 then [Char.ofNat (48 + n)]
  else natDigits (n / 10) ++ [Char.ofNat (48 + n % 10)]
decreasing_by
  exact Nat.div_lt_self (by omega) (by omega)

/-- Decimal rendering of an integer (model of JS string conversion for
integral numbers). -/
def intToDecStr (y : Int) : String :=
  if y < 0 then "-" ++ String.mk (natDigits y.natAbs) else String.mk (natDigits y.toNat)

def pad2 (n : Nat) : String :=
  if n < 10 then String.mk ('0' :: natDigits n) else String.mk (natDigits n)

/-- The `${yyyy}-${mm}-${dd}` template of `isoDate`: month and day are
padded to two digits, but the year is printed as-is — a year below 1000
renders with fewer than four digits (e.g. `999-01-05`), so the result is
not always ISO `YYYY-MM-DD` shaped. -/
def formatYMD (y : Int) (m d : Nat) : String :=
  intToDecStr y ++ "-" ++ pad2 m ++ "-" ++ pad2 d

def isLeapYear (y : Nat) : Bool :=
  (y % 4 = 0 && y % 100 ≠ 0) || y % 400 = 0

/-- Day count of a month in the proleptic Gregorian calendar. -/
def daysInMonth (y m : Nat) : Nat :=
  if m = 2 then (if isLeapYear y then 29 else 28)
  else if m = 4 || m = 6 || m = 9 || m = 11 then 30
  else 31

/-- The `new Date(string)` parser used by `isoDate`, modelled on the
ECMA-262 Date Time String Format's date-only profile — the behavior
every engine must implement: exactly `YYYY-MM-DD` with a four-digit year
0000..9999, a two-digit month 01..12 and a two-digit day that exists in
that month (`"2023-04-31"` is an Invalid Date per the standard, so
`isoDate` passes it through).  Strings in other formats are parsed only
by engine-specific fallback heuristics; the model conservatively treats
them as unparseable, so `isoDate` passes them through — either way the
`joined` output is the original cell or a `${yyyy}-${mm}-${dd}` template
image, which is all the theorems assert about it. -/
def jsDateParse (s : String) : Option (Int × Nat × Nat) :=
  match s.data with
  | [y1, y2, y3, y4, c1, m1, m2, c2, d1, d2] =>
    if [y1, y2, y3, y4, m1, m2, d1, d2].all isAsciiDigit && c1 = '-' && c2 = '-' then
      let y := decDigitsVal [y1, y2, y3, y4]
      let m := decDigitsVal [m1, m2]
      let d := decDigitsVal [d1, d2]
      if 1 ≤ m && m ≤ 12 && 1 ≤ d && d ≤ daysInMonth y m then
        some ((y : Int), m, d)
      else none
    else none
  | _ => none

/-- The sources' `isoDate` on a string: format as `YYYY-MM-DD` when the
date parses, else return the string unchanged. -/
def isoDateStr (s : String) : String :=
  match jsDateParse s with
  | some (y, m, d) => formatYMD y m d
  | none => s

/-- `isoDate` applied to a pipeline value.  A numeric argument is a
millisecond timestamp (`new Date(number)`), valid when its magnitude is at
most 8.64e15; `NaN` yields an invalid date, so the value is returned
unchanged.  The `null` case cannot arise in the pipeline. -/
def isoDateVal : JsVal → JsVal
  | .str s => .str (isoDateStr s)
  | .num n =>
    if n.natAbs ≤ 8640000000000000 then
      let t := civilFromDays (n.fdiv 86400000)
      .str (formatYMD t.1 t.2.1 t.2.2)
    else .num n
  | .nan => .nan
  | .null => .null

/-! ## CSV splitting (`normalizeCSVText` of `index.js` and of variant `part_001`) -/

/-- Split on `/\r?\n/`: a `\n` ends a line and eats one `\r` just before it. -/
def splitLinesAux (cur : List Char) : List Char → List (List Char)
  | [] => [cur.reverse]
  | c :: rest =>
    if c = '\n' then
      (match cur with
       | '\r' :: t => t.reverse
       | _ => cur.reverse) :: splitLinesAux [] rest
    else splitLinesAux (c :: cur) rest

def splitLines (l : List Char) : List (List Char) := splitLinesAux [] l

def splitCommasAux (cur : List Char) : List Char → List (List Char)
  | [] => [cur.reverse]
  | c :: rest =>
    if c = ',' then cur.reverse :: splitCommasAux [] rest
    else splitCommasAux (c :: cur) rest

def splitCommas (l : List Char) : List (List Char) := splitCommasAux [] l

/-- `csvText.trim().split(/\r?\n/).filter(Boolean).map(r => r.split(",").map(c => c.trim()))`. -/
def csvRows (csvText : String) : List (List String) :=
  ((splitLines (jsTrimL csvText.data)).filter (fun r => !r.isEmpty)).map
    (fun line => (splitCommas line).map (fun c => String.mk (jsTrimL c)))

/-- Header cell cleanup: `h.replace(/"/g, "").trim()`. -/
def cleanHeaderCell (h : String) : String :=
  String.mk (jsTrimL (h.data.filter (fun c => c ≠ Char.ofNat 34)))

/-- `key.replace(/[^a-z0-9]+/gi, "_")`: each maximal run of
non-alphanumeric characters becomes a single underscore.  `inRun` records
whether the previous character was part of such a run. -/
def snakeAux (inRun : Bool) : List Char → List Char
  | [] => []
  | c :: rest =>
    if isAsciiAlnum c then c :: snakeAux false rest
    else if inRun then snakeAux true rest
    else '_' :: snakeAux true rest

def snakeKey (s : String) : String := String.mk (snakeAux false s.data)

/-- One normalized output record.  The push in the sources builds an
object with exactly the fields `id`, `name`, `joined`, `value`. -/
structure CsvRec where
  id : JsVal
  name : JsVal
  joined : JsVal
  value : JsVal
deriving DecidableEq, Repr

/-- The sequential cell coercion of the row loop.  `exactId` selects the
variant: `index.js` tests `/id/i.test(key)` (substring), `part_001` tests
`/^id$/i.test(key)` (exact).  The three regex tests are applied one after
the other to the same mutable `v`, exactly as in the sources. -/
def coerceCell (exactId : Bool) (key : String) (cell : String) : JsVal :=
  let v0 : JsVal := .str cell
  let v1 := if (if exactId then key = "id" else strContains key "id") then jsParseIntVal cell else v0
  let v2 := if strContains key "value" then jsOrZero (jsParseIntVal (String.mk ((jsValToString v1).data.filter (fun c => isAsciiDigit c || c = '-')))) else v1
  let v3 := if strContains key "joined" || strContains key "date" || strContains key "created" then isoDateVal v2 else v2
  v3

/-- Lookup modelling JS property read on the object built by
`rec[snake(key)] = v` assignments: the last assignment to a key wins. -/
def lookupLast (k : String) : List (String × JsVal) → Option JsVal
  | [] => none
  | e :: rest =>
    match lookupLast k rest with
    | some v => some v
    | none => if e.1 = k then some e.2 else none

/-- The `rec` object of one row: entry `(snake(lowercased header), coerced cell)`
for each column of the (already cleaned) header. -/
def buildRec (exactId : Bool) (header : List String) (row : List String) : List (String × JsVal) :=
  (header.zip row).map (fun p =>
    let k := jsLower p.1
    (snakeKey k, coerceCell exactId k p.2))

/-- The pushed record: `{id: rec.id ?? i, name: rec.name ?? "", joined:
rec.joined ?? null, value: rec.value ?? 0}` where `i` is the row index in
`rows` (header included). -/
def recOfRow (exactId : Bool) (header : List String) (i : Nat) (row : List String) : CsvRec :=
  let fields := buildRec exactId header row
  { id := (lookupLast "id" fields).getD (.num (i : Int))
    name := (lookupLast "name" fields).getD (.str "")
    joined := (lookupLast "joined" fields).getD .null
    value := (lookupLast "value" fields).getD (.num 0) }

/-- The row loop: rows whose column count differs from the header's are
skipped, but the index `i` advances for every row. -/
def normalizeGo (exactId : Bool) (header : List String) : Nat → List (List String) → List CsvRec
  | _, [] => []
  | i, row :: rest =>
    if row.length = header.length then
      recOfRow exactId header i row :: normalizeGo exactId header (i + 1) rest
    else normalizeGo exactId header (i + 1) rest

/-- The comparator `(a, b) => a.id - b.id`; a `NaN` result is treated as 0
by `Array.prototype.sort`. -/
def jsCmpId (a b : CsvRec) : Int :=
  match a.id, b.id with
  | .num x, .num y => x - y
  | _, _ => 0

def leById (a b : CsvRec) : Bool := jsCmpId a b ≤ 0

/-- Stable insertion used by the sort model: an element is placed after
every element it compares equal to. -/
def insertById (x : CsvRec) : List CsvRec → List CsvRec
  | [] => [x]
  | y :: ys => if leById x y then x :: y :: ys else y :: insertById x ys

/-- Stable sort by the `a.id - b.id` comparator; models
`out.sort((a, b) => a.id - b.id)` (a stable sort, per the ECMAScript
specification; for a consistent comparator every stable sort produces the
same array). -/
def sortById : List CsvRec → List CsvRec
  | [] => []
  | x :: xs => insertById x (sortById xs)

/-- `normalizeCSVText` of `index.js`.  The result is `none` exactly when
the trimmed input has no nonempty line: there `rows[0]` is `undefined` and
`rows[0].map` throws a `TypeError` in the source. -/
def normalizeCSVText (csvText : String) : Option (List CsvRec) :=
  match csvRows csvText with
  | [] => none
  | hdr :: dataRows =>
    let header := hdr.map cleanHeaderCell
    some (sortById (normalizeGo false header 1 dataRows))

/-- `normalizeCSVText` of variant `part_001`: identical except for the
`if (rows.length < 1) return []` guard and the exact `/^id$/i` test. -/
def normalizeCSVText_v1 (csvText : String) : List CsvRec :=
  match csvRows csvText with
  | [] => []
  | hdr :: dataRows =>
    let header := hdr.map cleanHeaderCell
    sortById (normalizeGo true header 1 dataRows)

/-! ## JSON model (`JSON.parse` / `JSON.stringify` and `safeJsonParse`) -/

/-- JSON values.  Object members are kept in textual order; duplicate keys
are resolved by `jsonGet` taking the last occurrence, as `JSON.parse`
does.  Numbers are modelled by integers: the modelled `JSON.parse` subset
covers integer-valued numeric literals only (none of the instruction
payloads relevant to the claims uses fractions). -/
inductive Json where
  | null
  | bool (b : Bool)
  | num (n : Int)
  | str (s : String)
  | arr (items : List Json)
  | obj (members : List (String × Json))
deriving Repr

def braceOpen : Char := Char.ofNat 123

def braceClose : Char := Char.ofNat 125

def quoteChar : Char := Char.ofNat 34

def backslashChar : Char := Char.ofNat 92

def isJsonWs (c : Char) : Bool := c = ' ' || c = '\t' || c = '\n' || c = '\r'

def skipJsonWs (l : List Char) : List Char := l.dropWhile isJsonWs

/-- String body parser, positioned after the opening quote.  Handles the
JSON escapes; an invalid escape or a bare control character fails, as in
`JSON.parse`.  `\uXXXX` becomes the scalar value when valid (surrogate
halves fall back to NUL, a documented simplification). -/
def pJsonString : List Char → Option (List Char × List Char)
  | [] => none
  | c :: rest =>
    if c = quoteChar then some ([], rest)
    else if c = backslashChar then
      match rest with
      | [] => none
      | e :: rest2 =>
        let simple : Option Char :=
          if e = quoteChar then some quoteChar
          else if e = backslashChar then some backslashChar
          else if e = '/' then some '/'
          else if e = 'b' then some (Char.ofNat 8)
          else if e = 'f' then some (Char.ofNat 12)
          else if e = 'n' then some '\n'
          else if e = 'r' then some '\r'
          else if e = 't' then some '\t'
          else none
        match simple with
        | some d => (pJsonString rest2).map (fun p => (d :: p.1, p.2))
        | none =>
          if e = 'u' then
            match rest2 with
            | h1 :: h2 :: h3 :: h4 :: rest3 =>
              if isHexDigit h1 && isHexDigit h2 && isHexDigit h3 && isHexDigit h4 then
                (pJsonString rest3).map (fun p => (Char.ofNat (hexDigitsVal [h1, h2, h3, h4]) :: p.1, p.2))
              else none
            | _ => none
          else none
    else if c.toNat < 32 then none
    else (pJsonString rest).map (fun p => (c :: p.1, p.2))

/-- Integer JSON number literal: optional minus, digits; fails when a
fraction or exponent follows (outside the modelled subset). -/
def pJsonNumber (l : List Char) : Option (Int × List Char) :=
  let core : List Char → Option (Int × List Char) := fun l2 =>
    let ds := l2.takeWhile isAsciiDigit
    if ds.isEmpty then none
    else
      let rest := l2.dropWhile isAsciiDigit
      match rest with
      | c :: _ => if c = '.' || c = 'e' || c = 'E' then none else some ((decDigitsVal ds : Int), rest)
      | [] => some ((decDigitsVal ds : Int), [])
  match l with
  | '-' :: rest => (core rest).map (fun p => (-p.1, p.2))
  | _ => core l

mutual

/-- Recursive-descent value parser for the modelled `JSON.parse` subset.
The fuel argument strictly decreases on every call and is chosen large
enough by `jsonParse`. -/
def pJsonValue : Nat → List Char → Option (Json × List Char)
  | 0, _ => none
  | fuel + 1, l =>
    match skipJsonWs l with
    | [] => none
    | c :: rest =>
      if c = quoteChar then (pJsonString rest).map (fun p => (Json.str (String.mk p.1), p.2))
      else if c = braceOpen then
        match skipJsonWs rest with
        | d :: rest2 =>
          if d = braceClose then some (Json.obj [], rest2)
          else pJsonMembers fuel (d :: rest2)
        | [] => none
      else if c = '[' then
        match skipJsonWs rest with
        | d :: rest2 =>
          if d = ']' then some (Json.arr [], rest2)
          else pJsonItems fuel (d :: rest2)
        | [] => none
      else if listStartsWith "true".data (c :: rest) then some (Json.bool true, rest.drop 3)
      else if listStartsWith "false".data (c :: rest) then some (Json.bool false, rest.drop 4)
      else if listStartsWith "null".data (c :: rest) then some (Json.null, rest.drop 3)
      else (pJsonNumber (c :: rest)).map (fun p => (Json.num p.1, p.2))

/-- Object members, positioned at the first character of a key (after any
leading whitespace was inspected by the caller). -/
def pJsonMembers : Nat → List Char → Option (Json × List Char)
  | 0, _ => none
  | fuel + 1, l =>
    match skipJsonWs l with
    | c :: rest =>
      if c = quoteChar then
        match pJsonString rest with
        | none => none
        | some (key, rest2) =>
          match skipJsonWs rest2 with
          | ':' :: rest3 =>
            match pJsonValue fuel rest3 with
            | none => none
            | some (v, rest4) =>
              match skipJsonWs rest4 with
              | ',' :: rest5 =>
                match pJsonMembers fuel rest5 with
                | some (Json.obj ms, rest6) => some (Json.obj ((String.mk key, v) :: ms), rest6)
                | _ => none
              | d :: rest5 =>
                if d = braceClose then some (Json.obj [(String.mk key, v)], rest5) else none
              | [] => none
          | _ => none
      else none
    | [] => none

/-- Array items, positioned at the first character of an item. -/
def pJsonItems : Nat → List Char → Option (Json × List Char)
  | 0, _ => none
  | fuel + 1, l =>
    match pJsonValue fuel l with
    | none => none
    | some (v, rest) =>
      match skipJsonWs rest with
      | ',' :: rest2 =>
        match pJsonItems fuel rest2 with
        | some (Json.arr items, rest3) => some (Json.arr (v :: items), rest3)
        | _ => none
      | ']' :: rest2 => some (Json.arr [v], rest2)
      | _ => none

end

/-- `JSON.parse` model: parse one value and require only whitespace after
it. -/
def jsonParse (s : String) : Option Json :=
  match pJsonValue (2 * s.data.length + 2) s.data with
  | some (v, rest) => if (skipJsonWs rest).isEmpty then some v else none
  | none => none

/-- `safeJsonParse` of the sources: `JSON.parse` with the exception turned
into `null`. -/
def safeJsonParse (s : String) : Option Json := jsonParse s

/-- Property read `j.key` with last-occurrence-wins duplicate handling;
`none` models `undefined` (also for non-object receivers). -/
def jsonGet (j : Json) (k : String) : Option Json :=
  match j with
  | .obj ms => lookupLastJson k ms
  | _ => none
where lookupLastJson (k : String) : List (String × Json) → Option Json
  | [] => none
  | e :: rest =>
    match lookupLastJson k rest with
    | some v => some v
    | none => if e.1 = k then some e.2 else none

/-- JS truthiness of a JSON value. -/
def jsTruthy : Json → Bool
  | .null => false
  | .bool b => b
  | .num n => n ≠ 0
  | .str s => s ≠ ""
  | .arr _ => true
  | .obj _ => true

/-- `JSON.stringify` escaping for one character. -/
def escapeJsonChar (c : Char) : List Char :=
  if c = quoteChar then [backslashChar, quoteChar]
  else if c = backslashChar then [backslashChar, backslashChar]
  else if c = '\n' then [backslashChar, 'n']
  else if c = '\r' then [backslashChar, 'r']
  else if c = '\t' then [backslashChar, 't']
  else if c = Char.ofNat 8 then [backslashChar, 'b']
  else if c = Char.ofNat 12 then [backslashChar, 'f']
  else if c.toNat < 32 then
    [backslashChar, 'u', '0', '0',
     (if c.toNat / 16 < 10 then Char.ofNat (48 + c.toNat / 16) else Char.ofNat (87 + c.toNat / 16)),
     (if c.toNat % 16 < 10 then Char.ofNat (48 + c.toNat % 16) else Char.ofNat (87 + c.toNat % 16))]
  else [c]

def escapeJsonList : List Char → List Char
  | [] => []
  | c :: rest => escapeJsonChar c ++ escapeJsonList rest

def quoteJson (s : String) : String :=
  String.mk (quoteChar :: escapeJsonList s.data ++ [quoteChar])

mutual

/-- `JSON.stringify` model (no spacing argument). -/
def jsonStringify : Json → String
  | .null => "null"
  | .bool b => if b then "true" else "false"
  | .num n => toString n
  | .str s => quoteJson s
  | .arr items => "[" ++ stringifyItems items ++ "]"
  | .obj ms => String.mk [braceOpen] ++ stringifyMembers ms ++ String.mk [braceClose]

def stringifyItems : List Json → String
  | [] => ""
  | [x] => jsonStringify x
  | x :: y :: rest => jsonStringify x ++ "," ++ stringifyItems (y :: rest)

def stringifyMembers : List (String × Json) → String
  | [] => ""
  | [e] => quoteJson e.1 ++ ":" ++ jsonStringify e.2
  | e :: f :: rest => quoteJson e.1 ++ ":" ++ jsonStringify e.2 ++ "," ++ stringifyMembers (f :: rest)

end

/-- Byte length of the UTF-8 encoding of a character list; models
`Buffer.byteLength(s, "utf8")`. -/
def utf8LenL : List Char → Nat
  | [] => 0
  | c :: rest => c.utf8Size + utf8LenL rest

def utf8Len (s : String) : Nat := utf8LenL s.data

/-! ## Base64 and the `atob(...)` script scan -/

def backtickChar : Char := Char.ofNat 96

def squoteChar : Char := Char.ofNat 39

def b64CharVal (c : Char) : Option Nat :=
  if isAsciiUpper c then some (c.toNat - 65)
  else if isAsciiLower c then some (c.toNat - 71)
  else if isAsciiDigit c then some (c.toNat + 4)
  else if c = '+' then some 62
  else if c = '/' then some 63
  else none

/-- Sextet groups to bytes (Node's lenient base64 decoder: non-alphabet
characters, including `=` padding, are skipped; a trailing group of 2 or 3
sextets contributes 1 or 2 bytes, a single leftover sextet is dropped). -/
def b64Groups : List Nat → List Nat
  | s1 :: s2 :: s3 :: s4 :: rest =>
    (s1 * 4 + s2 / 16) :: ((s2 % 16) * 16 + s3 / 4) :: ((s3 % 4) * 64 + s4) :: b64Groups rest
  | [s1, s2, s3] => [s1 * 4 + s2 / 16, (s2 % 16) * 16 + s3 / 4]
  | [s1, s2] => [s1 * 4 + s2 / 16]
  | _ => []

/-- Model of `Buffer.from(b64, "base64").toString("utf8")`: bytes below
128 decode to their ASCII character; other bytes are rendered as U+FFFD
(the model does not reassemble multi-byte UTF-8 sequences — the payloads
relevant to the claims are ASCII). -/
def b64DecodeUtf8 (s : String) : String :=
  String.mk ((b64Groups (s.data.filterMap b64CharVal)).map
    (fun b => if b < 128 then Char.ofNat b else Char.ofNat 65533))

/-- Match of `/atob\((`…`|"…"|'…')\)/i` anchored at the current position:
the name `atob(` (case-insensitively), a quote, a nonempty literal without
that quote, the closing quote and `)`.  Returns the literal. -/
def atobLiteralAt (l : List Char) : Option String :=
  if (l.take 5).map jsLowerChar = "atob(".data then
    match l.drop 5 with
    | q :: rest =>
      if q = backtickChar || q = quoteChar || q = squoteChar then
        let content := rest.takeWhile (fun c => c ≠ q)
        if content.isEmpty then none
        else
          match rest.dropWhile (fun c => c ≠ q) with
          | _ :: ')' :: _ => some (String.mk content)
          | _ => none
      else none
    | [] => none
  else none

/-- Leftmost match of the `atob` literal pattern in a script body. -/
def findAtobL : List Char → Option String
  | [] => none
  | c :: t =>
    match atobLiteralAt (c :: t) with
    | some r => some r
    | none => findAtobL t

def findAtob (s : String) : Option String := findAtobL s.data

/-- Match of `/\{[\s\S]*\}/` (greedy): from the first opening brace to the
last closing brace, provided the latter comes after the former. -/
def braceSubstring (s : String) : Option String :=
  match s.data.findIdx? (fun c => c = braceOpen) with
  | none => none
  | some i =>
    let l := s.data.drop i
    let j := (l.reverse.findIdx? (fun c => c = braceClose)).map (fun k => l.length - 1 - k)
    match j with
    | some jj => if 0 < jj then some (String.mk (l.take (jj + 1))) else none
    | none => none

/-! ## Instruction extraction (`extractInstructionFromPage` of `index.js`) -/

/-- A rendered page, as far as the extractor inspects it: the trimmed
`innerText` of each `<pre>` element, the `innerHTML` of `#result` (`none`
when the element is absent), and the `innerText` of each `<script>`. -/
structure RenderedPage where
  preTexts : List String
  resultHtml : Option String
  scripts : List String

/-- First `<pre>` block whose trimmed text parses to a truthy JSON value:
the loop body is `if (j) return j` (index.js:84), so a block whose parse
is falsy (`0`, `false`, `null`, `""`) is skipped like an unparseable one. -/
def firstJsonPre (preTexts : List String) : Option Json :=
  match preTexts with
  | [] => none
  | p :: rest =>
    match safeJsonParse p with
    | some j => if jsTruthy j then some j else firstJsonPre rest
    | none => firstJsonPre rest

def previewObj (s : String) : Json := Json.obj [("preview", Json.str s)]

/-- The brace-substring recovery shared by strategies B and C: match
`/{[\s\S]*}/` against `text`, keep its parse only when truthy
(`if (j2) return j2`, index.js:101/:116), otherwise fall back to the
`{preview: text}` object. -/
def braceRecovery (text : String) : Json :=
  match braceSubstring text with
  | some sub =>
    match safeJsonParse sub with
    | some j2 => if jsTruthy j2 then j2 else previewObj text
    | none => previewObj text
  | none => previewObj text

/-- `extractInstructionFromPage` of `index.js` (lines 79–124): strategy A
scans `<pre>` blocks for JSON that parses to a truthy value (`if (j)
return j`); strategy B, entered only when `#result` has nonblank content,
decodes the first `atob("…")` literal found in a script and tries JSON
(again kept only if truthy), then a brace-delimited substring, then a
`{preview}` wrapper; strategy C applies the brace-substring scan to
the result markup itself; otherwise `null`. -/
def extractInstructionFromPage (page : RenderedPage) : Option Json :=
  match firstJsonPre page.preTexts with
  | some j => some j
  | none =>
    match page.resultHtml with
    | none => none
    | some h =>
      if (jsTrim h).data.isEmpty then none
      else
        match page.scripts.findSome? findAtob with
        | some b64 =>
          let decoded := b64DecodeUtf8 b64
          match safeJsonParse decoded with
          | some j => if jsTruthy j then some j else some (braceRecovery decoded)
          | none => some (braceRecovery decoded)
        | none => some (braceRecovery h)

/-! ## Audio passphrase (`solveAudioPassphrase` of `index.js` and `part_001`) -/

/-- Match of `/([a-z]{3,}\s+[a-z]{3,})\s+(\d{3})/i` anchored at the
current position: two maximal letter runs of length at least 3 separated
by whitespace, then whitespace and three digits.  Returns the text of
capture group 1 (letters and the original separating whitespace) and the
three digit characters of group 2. -/
def matchTwoWordsAt (l : List Char) : Option (List Char × List Char) :=
  let w1 := l.takeWhile isAsciiLetter
  if w1.length < 3 then none
  else
    let r1 := l.dropWhile isAsciiLetter
    let sp1 := r1.takeWhile isJsWs
    if sp1.isEmpty then none
    else
      let r2 := r1.dropWhile isJsWs
      let w2 := r2.takeWhile isAsciiLetter
      if w2.length < 3 then none
      else
        let r3 := r2.dropWhile isAsciiLetter
        let sp2 := r3.takeWhile isJsWs
        if sp2.isEmpty then none
        else
          match r3.dropWhile isJsWs with
          | d1 :: d2 :: d3 :: _ =>
            if isAsciiDigit d1 && isAsciiDigit d2 && isAsciiDigit d3 then
              some (w1 ++ sp1 ++ w2, [d1, d2, d3])
            else none
          | _ => none

/-- Leftmost match of the two-word pattern. -/
def audioScanMain : List Char → Option (List Char × List Char)
  | [] => none
  | c :: t =>
    match matchTwoWordsAt (c :: t) with
    | some m => some m
    | none => audioScanMain t

/-- `solveAudioPassphrase` of `index.js` (lines 148–186): the visible body
text is matched against `/([a-z]{3,}\s+[a-z]{3,})\s+(\d{3})/i` and the
result is `` `${m[1].toLowerCase()} ${m[2]}` ``.  When the regex does not
match, the audio-element branch runs, but every one of its paths resolves
to `null` (no speech-to-text is attempted), so the function returns
`none`. -/
def solveAudioPassphrase (bodyText : String) : Option String :=
  match audioScanMain bodyText.data with
  | some m => some (String.mk (m.1.map jsLowerChar) ++ " " ++ String.mk m.2)
  | none => none

/-- One backtracking step of `(?:\s+[a-z]{2,}){0,2}\s+(\d{3})` after the
words collected so far (variant `part_001`): prefer consuming another
word (up to `extra` more), fall back to finishing with the digit group. -/
def finishDigitsV1 (m1 : List Char) (r : List Char) : Option (List Char × List Char) :=
  let sp := r.takeWhile isJsWs
  if sp.isEmpty then none
  else
    match r.dropWhile isJsWs with
    | d1 :: d2 :: d3 :: _ =>
      if isAsciiDigit d1 && isAsciiDigit d2 && isAsciiDigit d3 then
        some (m1, [d1, d2, d3])
      else none
    | _ => none

def tryWordsV1 (m1 : List Char) (r : List Char) : Nat → Option (List Char × List Char)
  | 0 => finishDigitsV1 m1 r
  | extra + 1 =>
    let attempt :=
      let sp := r.takeWhile isJsWs
      if sp.isEmpty then none
      else
        let r2 := r.dropWhile isJsWs
        let w := r2.takeWhile isAsciiLower
        if w.length < 2 then none
        else tryWordsV1 (m1 ++ sp ++ w) (r2.dropWhile isAsciiLower) extra
    match attempt with
    | some m => some m
    | none => finishDigitsV1 m1 r

/-- Match of `/([a-z]{2,}(?:\s+[a-z]{2,}){0,2})\s+(\d{3})/i` (variant
`part_001`) anchored at the current position, on text that the caller has
already lowercased. -/
def matchWordsV1At (l : List Char) : Option (List Char × List Char) :=
  let w1 := l.takeWhile isAsciiLower
  if w1.length < 2 then none
  else tryWordsV1 w1 (l.dropWhile isAsciiLower) 2

def audioScanV1 : List Char → Option (List Char × List Char)
  | [] => none
  | c :: t =>
    match matchWordsV1At (c :: t) with
    | some m => some m
    | none => audioScanV1 t

/-- `solveAudioPassphrase` of variant `part_001` (lines 148–156): the body
text is lowercased, matched against
`/([a-z]{2,}(?:\s+[a-z]{2,}){0,2})\s+(\d{3})/i`, and the result is
`` `${m[1].trim()} ${m[2]}`.toLowerCase() ``; `null` when there is no
match. -/
def solveAudioPassphrase_v1 (bodyText : String) : Option String :=
  match audioScanV1 (jsLower bodyText).data with
  | some m =>
    some (jsLower (String.mk (jsTrimL m.1) ++ " " ++ String.mk m.2))
  | none => none

/-! ## GitHub tree counting (`solveGHTreeFromJson` / `solveGHTreeFromParams`) -/

/-- One entry of the provider's recursive tree listing (`{tree: [{path, …}]}`). -/
structure GHEntry where
  path : String
deriving DecidableEq, Repr

/-- The parameter object: each field may be absent. `pathPfx` models the
source's `pathPrefix` field. -/
structure GHParams where
  owner : Option String
  repo : Option String
  sha : Option String
  pathPfx : Option String
  extension : Option String
deriving Repr

/-- Outcome of a gh-tree resolution: either the missing-parameter throw,
or the API request that would be issued together with the integer computed
from the (abstracted) successful response. -/
inductive GHTreeOutcome where
  | missingParams (msg : String)
  | attempted (apiUrl : String) (value : Nat)
deriving DecidableEq, Repr

/-- JS truthiness of an optional string (`undefined` and `""` are falsy). -/
def jsFalsyStr (x : Option String) : Bool :=
  match x with
  | none => true
  | some s => s.isEmpty

def ghApiUrl (owner repo sha : String) : String :=
  "https://api.github.com/repos/" ++ owner ++ "/" ++ repo ++ "/git/trees/" ++ sha ++ "?recursive=1"

/-- Model of `String.prototype.startsWith`. -/
def strStartsWith (s pre : String) : Bool := listStartsWith pre.data s.data

/-- Model of `String.prototype.endsWith`. -/
def strEndsWith (s suf : String) : Bool := listStartsWith suf.data.reverse s.data.reverse

def ghMatchCount (tree : List GHEntry) (pfx ext : String) (email : String) : Nat :=
  (tree.filter (fun e => strStartsWith e.path pfx && strEndsWith e.path ext)).length + email.length % 2

/-- `solveGHTreeFromParams` of variant `part_001` (lines 250–266): missing
`owner`/`repo`/`sha` throw `missing-gh-params` before any request;
otherwise the recursive-tree API is called (`treeField` models the `tree`
field of the parsed response, `j.tree || []`), matching entries are
counted and `(email.length % 2)` is added. -/
def solveGHTreeFromParams (p : GHParams) (email : String) (treeField : Option (List GHEntry)) : GHTreeOutcome :=
  if jsFalsyStr p.owner || jsFalsyStr p.repo || jsFalsyStr p.sha then
    .missingParams "missing-gh-params"
  else
    let owner := p.owner.getD ""
    let repo := p.repo.getD ""
    let sha := p.sha.getD ""
    let pfx := p.pathPfx.getD ""
    let ext := p.extension.getD ".md"
    .attempted (ghApiUrl owner repo sha) (ghMatchCount (treeField.getD []) pfx ext email)

/-- `solveGHTreeFromJson` of `index.js` (lines 289–301): no parameter
check at all.  An absent field is interpolated into the template literal
as the text `undefined`; `startsWith(pathPrefix)` coerces an `undefined`
prefix to the string `"undefined"`; `extension || ".md"` defaults a falsy
extension. -/
def solveGHTreeFromJson (p : GHParams) (email : String) (treeField : Option (List GHEntry)) : GHTreeOutcome :=
  let tmpl : Option String → String := fun x => x.getD "undefined"
  let pfx := tmpl p.pathPfx
  let ext := if jsFalsyStr p.extension then ".md" else p.extension.getD ""
  .attempted (ghApiUrl (tmpl p.owner) (tmpl p.repo) (tmpl p.sha))
    (ghMatchCount (treeField.getD []) pfx ext email)

/-! ## Submission gate of `solveChain` (`index.js` lines 471–491) -/

/-- The `{email, secret, url, answer}` payload object, in the member
order of the source. -/
def payloadJson (email secret url : String) (answer : Json) : Json :=
  Json.obj [("email", Json.str email), ("secret", Json.str secret),
            ("url", Json.str url), ("answer", answer)]

/-- What the submit section of a chain step did: posted the serialized
body to the target, or recorded the `payload-too-large` error object
without any network call. -/
inductive SubmitOutcome where
  | posted (url : String) (body : String)
  | tooLarge (response : Json)
deriving Repr

/-- The submit section of one `solveChain` step: guarded by
`finalSubmitUrl && typeof answer !== "undefined" && answer !== null`
(`none` = no submission at all); the serialized payload is posted only
when its UTF-8 byte length is strictly below 1 MiB, otherwise
`submitResponse` becomes `{error: "payload-too-large"}` and no request is
made. -/
def stepSubmit (finalSubmitUrl : Option String) (answer : Option Json)
    (email secret currentUrl : String) : Option SubmitOutcome :=
  match finalSubmitUrl, answer with
  | some tgt, some a =>
    if tgt.isEmpty then none
    else
      let bodyStr := jsonStringify (payloadJson email secret currentUrl a)
      if utf8Len bodyStr < 1024 * 1024 then some (.posted tgt bodyStr)
      else some (.tooLarge (Json.obj [("error", Json.str "payload-too-large")]))
  | _, _ => none

/-! ## The stepping loop of `solveChain` (`index.js` lines 344–512) -/

/-- `MAX_STEPS` of `index.js`. -/
def MAX_STEPS : Nat := 15

/-- The body of one loop iteration, abstracted as an environment: given
the step index and the current URL it yields the `url` field of the step's
submit response when that response carried one (the page rendering,
instruction extraction, task resolution and the submit endpoint itself all
feed into this single continuation decision, which is the only part of the
body the loop inspects). -/
def ChainEnv : Type := Nat → String → Option String

/-- The `for (let step = 0; step < MAX_STEPS; step++)` loop: visit the
current URL; continue with `submitResponse.url` when present, else break.
Structural recursion on the remaining step budget. -/
def chainLoopAux (env : ChainEnv) : Nat → Nat → String → List String
  | 0, _, _ => []
  | fuel + 1, idx, url =>
    url :: (match env idx url with
            | some next => chainLoopAux env fuel (idx + 1) next
            | none => [])

/-- The URLs visited by `solveChain`'s stepping loop. -/
def solveChainVisits (env : ChainEnv) (startUrl : String) : List String :=
  chainLoopAux env MAX_STEPS 0 startUrl

/-! ## The control endpoint (`app.post("/api/quiz")`, `index.js` lines 520–533) -/

/-- `SECRET`: `process.env.PROJECT_SECRET || "my-top-secret-123"` with the
default value (no environment override configured). -/
def SECRET : String := "my-top-secret-123"

/-- Request body fields as received (`none` = property absent). -/
structure QuizReqBody where
  email : Option String
  secret : Option String
  url : Option String
deriving Repr

/-- Decision taken by the endpoint before any work happens.  `runChain` is
the only constructor that goes on to launch a browser and make outbound
requests (`solveChain`); the `rejected` responses are produced before any
of that. -/
inductive QuizDecision where
  | rejected (status : Nat) (body : Json)
  | runChain (url email secret : String)
deriving Repr

/-- The guard sequence of the endpoint: `if (!email || !secret || !url)
return 400 {error: "missing-fields"}; if (secret !== SECRET) return 403
{error: "invalid-secret"}; ... await solveChain(url, email, secret)`. -/
def quizEndpointGate (b : QuizReqBody) : QuizDecision :=
  if jsFalsyStr b.email || jsFalsyStr b.secret || jsFalsyStr b.url then
    .rejected 400 (Json.obj [("error", Json.str "missing-fields")])
  else if b.secret ≠ some SECRET then
    .rejected 403 (Json.obj [("error", Json.str "invalid-secret")])
  else
    .runChain (b.url.getD "") (b.email.getD "") (b.secret.getD "")

/-! ## The secondary single-page solver (`solveQuizPage`, `index.js` lines 551–647) -/

/-- Model of the JS `+` operator for the operand shapes the `table` sum
can produce: two numeric-coercible primitives add numerically, a string
operand concatenates (via a simplified `toString`). -/
def jsToStr : Json → String
  | .str s => s
  | .num n => toString n
  | .null => "null"
  | .bool b => if b then "true" else "false"
  | .arr _ => ""
  | .obj _ => "[object Object]"

def jsNumCoerce : Json → Option Int
  | .num n => some n
  | .null => some 0
  | .bool b => some (if b then 1 else 0)
  | _ => none

def jsAdd (a b : Json) : Json :=
  match jsNumCoerce a, jsNumCoerce b with
  | some x, some y => .num (x + y)
  | _, _ => .str (jsToStr a ++ jsToStr b)

/-- `row.value || 0` inside the table reduction; a `null` row would throw
on property access, surfaced as `none`. -/
def rowValueOrZero (row : Json) : Option Json :=
  match row with
  | .null => none
  | _ =>
    some (match jsonGet row "value" with
          | some v => if jsTruthy v then v else .num 0
          | none => .num 0)

def sumTableRows (rows : List Json) : Option Json :=
  rows.foldl (fun acc row =>
    match acc, rowValueOrZero row with
    | some a, some v => some (jsAdd a v)
    | _, _ => none) (some (.num 0))

/-- The result of `solveQuizPage` as far as the claims inspect it. -/
inductive V2Outcome where
  | noJson
  | solved (answer : Json) (submitAction : Option (String × Json))
deriving Repr

/-- The `<pre>` scan of `solveQuizPage`: first block that parses as JSON
and has an `answer` property (`parsed.answer !== undefined`; a thrown
property access on `null` is swallowed by the `catch`). -/
def v2Extract : List String → Option Json
  | [] => none
  | b :: rest =>
    match safeJsonParse b with
    | some j =>
      match j with
      | .obj _ => if (jsonGet j "answer").isSome then some j else v2Extract rest
      | _ => v2Extract rest
    | none => v2Extract rest

/-- `solveQuizPage` of the second variant inside `index.js` (lines
551–647): when an instruction block is found, the answer is computed from
`table` / `value` / `sum` — and defaults to `0` when none of those apply —
and is then posted to `submitUrl || url` whenever that target is truthy
(no null-answer guard and no size cap in this variant).  `Except` carries
the `TypeError` of calling `.reduce` on a non-array `table`. -/
def solveQuizPage_v2 (preBlocks : List String) (email secret quizUrl : String) :
    Except String V2Outcome :=
  match v2Extract preBlocks with
  | none => .ok .noJson
  | some instr =>
    let submitUrlVal : Option Json :=
      match jsonGet instr "submitUrl" with
      | some v => if jsTruthy v then some v else
          (match jsonGet instr "url" with
           | some w => some w
           | none => none)
      | none =>
        match jsonGet instr "url" with
        | some w => some w
        | none => none
    let answerE : Except String Json :=
      match jsonGet instr "table" with
      | some t =>
        if jsTruthy t then
          match t with
          | .arr rows =>
            match sumTableRows rows with
            | some s => .ok s
            | none => .error "TypeError: cannot read value of null row"
          | _ => .error "TypeError: table.reduce is not a function"
        else fallThrough
      | none => fallThrough
    match answerE with
    | .error e => .error e
    | .ok answer =>
      let target : Option (String × Json) :=
        match submitUrlVal with
        | some v =>
          if jsTruthy v then some (jsToStr v, payloadJson email secret quizUrl answer)
          else none
        | none => none
      .ok (.solved answer target)
where fallThrough : Except String Json :=
    match v2Extract preBlocks with
    | some instr =>
      match jsonGet instr "value" with
      | some (.num n) => .ok (.num n)
      | _ =>
        match jsonGet instr "sum" with
        | some s => if jsTruthy s then .ok s else .ok (.num 0)
        | none => .ok (.num 0)
    | none => .ok (.num 0)

/-! ## Spec-side comparison definitions and claim-specific predicates -/

/-- The shape of `isoDate`'s `${yyyy}-${mm}-${dd}` template output: a
nonempty digit run (the year, printed unpadded, so possibly shorter than
four digits — `"999-01-05"`), then `-DD-DD`.  The spec's words say "an ISO
YYYY-MM-DD string", but the program does not pad the year, so the amended
claim uses this shape instead. -/
def isJsDateImageShape (s : String) : Bool :=
  !((s.data.takeWhile isAsciiDigit).isEmpty) &&
  (match s.data.dropWhile isAsciiDigit with
   | [c1, e, f, c2, g, i] =>
     c1 = '-' && isAsciiDigit e && isAsciiDigit f &&
     c2 = '-' && isAsciiDigit g && isAsciiDigit i
   | _ => false)

/-- Integer key used by the sort comparator once every `id` is numeric. -/
def recIdInt (r : CsvRec) : Int :=
  match r.id with
  | .num n => n
  | _ => 0

/-- Does `parseInt` on this cell produce an integer that a JS double
represents exactly (magnitude below `2^53`)?  Cells outside this range
parse to a rounded double or to `Infinity`, which the exact-integer model
does not track. -/
def idCellOkB (cell : String) : Bool :=
  match jsParseInt cell.data with
  | some n => n.natAbs < 2 ^ 53
  | none => false

/-- Do all cells that land in the `id` field of a record (columns whose
snake-cased lowercased header is exactly `id`) parse under `parseInt` to
an exactly-representable integer? -/
def idCellsOk (csvText : String) : Bool :=
  match csvRows csvText with
  | [] => true
  | hdr :: dataRows =>
    let header := hdr.map cleanHeaderCell
    dataRows.all (fun row =>
      (header.zip row).all (fun p =>
        !(snakeKey (jsLower p.1) = "id") || idCellOkB p.2))

/-- The `value` coercion strips the cell to digits and `-` and applies
`parseInt` (`NaN` then falls back to `0`): is the parse either `NaN` or an
exactly-representable integer? -/
def valueCellOkB (cell : String) : Bool :=
  match jsParseInt (cell.data.filter (fun c => isAsciiDigit c || c = '-')) with
  | some n => n.natAbs < 2 ^ 53
  | none => true

/-- Do all cells that land in the `value` field of a record (columns whose
snake-cased lowercased header is exactly `value`) strip-parse to `NaN` or
to an exactly-representable integer? -/
def valueCellsOk (csvText : String) : Bool :=
  match csvRows csvText with
  | [] => true
  | hdr :: dataRows =>
    let header := hdr.map cleanHeaderCell
    dataRows.all (fun row =>
      (header.zip row).all (fun p =>
        !(snakeKey (jsLower p.1) = "value") || valueCellOkB p.2))

/-- Modelled from the spec: "a pattern matching 1–3 lowercase words
followed by a 3-digit number".  A word is a nonempty maximal run of
lowercase letters; the number is exactly three digits (not followed by a
fourth).  Anchored matcher at the current position. -/
def specFinishDigits (r : List Char) : Bool :=
  let sp := r.takeWhile isJsWs
  if sp.isEmpty then false
  else
    match r.dropWhile isJsWs with
    | d1 :: d2 :: d3 :: rest =>
      isAsciiDigit d1 && isAsciiDigit d2 && isAsciiDigit d3 &&
      (match rest with
       | d4 :: _ => !isAsciiDigit d4
       | [] => true)
    | _ => false

def specTryWords (r : List Char) : Nat → Bool
  | 0 => specFinishDigits r
  | extra + 1 =>
    (let sp := r.takeWhile isJsWs
     if sp.isEmpty then false
     else
       let r2 := r.dropWhile isJsWs
       let w := r2.takeWhile isAsciiLower
       if w.isEmpty then false
       else specTryWords (r2.dropWhile isAsciiLower) extra) ||
    specFinishDigits r

def specAudioMatchAt (l : List Char) : Bool :=
  let w1 := l.takeWhile isAsciiLower
  if w1.isEmpty then false else specTryWords (l.dropWhile isAsciiLower) 2

/-- Modelled from the spec: does the visible text contain, at any
position, 1–3 lowercase words followed by a 3-digit number? -/
def specAudioHasPhrase : List Char → Bool
  | [] => false
  | c :: t => specAudioMatchAt (c :: t) || specAudioHasPhrase t

/-- A two-word-then-three-digit occurrence of the `index.js` audio
pattern starting exactly at the head of `l`: the shape that
`matchTwoWordsAt` recognizes. -/
def TwoWordPhrase (l : List Char) : Prop :=
  ∃ w1 sp1 w2 sp2 d rest,
    l = w1 ++ sp1 ++ w2 ++ sp2 ++ d ++ rest ∧
    3 ≤ w1.length ∧ w1.all isAsciiLetter = true ∧
    sp1 ≠ [] ∧ sp1.all isJsWs = true ∧
    3 ≤ w2.length ∧ w2.all isAsciiLetter = true ∧
    sp2 ≠ [] ∧ sp2.all isJsWs = true ∧
    d.length = 3 ∧ d.all isAsciiDigit = true

/-! ## Theorems -/

theorem chainLoopAux_length_le (env : ChainEnv) :
    ∀ (fuel idx : Nat) (url : String), (chainLoopAux env fuel idx url).length ≤ fuel
  | 0, _, _ => Nat.le_refl _
  | fuel + 1, idx, url => by
    simp only [chainLoopAux]
    cases env idx url with
    | some next =>
      simpa using Nat.succ_le_succ (chainLoopAux_length_le env fuel (idx + 1) next)
    | none => simp

/-- C2: for every start URL and every environment behavior — the
environment argument covers every possible submit-endpoint behavior,
including one that returns a next URL on every submission — the stepping
loop of `solveChain` visits at most 15 URLs, i.e. executes at most
`MAX_STEPS = 15` steps, and terminates (the loop is structural recursion
on the remaining step budget). -/
theorem c2_chain_loop_bounded (env : ChainEnv) (startUrl : String) :
    (solveChainVisits env startUrl).length ≤ 15 :=
  chainLoopAux_length_le env MAX_STEPS 0 startUrl

/-- C4: when `owner`, `repo` and `sha` are all present (truthy), gh-tree
resolution issues the tree-listing request and returns the number of tree
entries whose path starts with `pathPrefix` (default `""`) and ends with
`extension` (default `".md"` when unspecified), plus the length of the
caller's email modulo 2. -/
theorem c4_ghtree_count (p : GHParams) (email : String) (treeField : Option (List GHEntry))
    (ho : jsFalsyStr p.owner = false) (hr : jsFalsyStr p.repo = false)
    (hs : jsFalsyStr p.sha = false) :
    solveGHTreeFromParams p email treeField =
      .attempted (ghApiUrl (p.owner.getD "") (p.repo.getD "") (p.sha.getD ""))
        (((treeField.getD []).filter (fun e =>
            strStartsWith e.path (p.pathPfx.getD "") &&
            strEndsWith e.path (p.extension.getD ".md"))).length + email.length % 2) := by
  simp [solveGHTreeFromParams, ho, hr, hs, ghMatchCount]

/-- C4 witness: a fixed fake tree listing of 10 entries, 6 of which match
`pathPrefix = "docs/"` and the default extension `".md"`, and an email of
length 7, yield `6 + (7 % 2) = 7`. -/
theorem c4_ghtree_count_witness :
    jsFalsyStr (some "o") = false ∧ ("a@b.com" : String).length = 7 ∧
    solveGHTreeFromParams ⟨some "o", some "r", some "s", some "docs/", none⟩ "a@b.com"
      (some [⟨"docs/a.md"⟩, ⟨"docs/b.md"⟩, ⟨"docs/sub/c.md"⟩, ⟨"docs/d.md"⟩,
             ⟨"docs/e.md"⟩, ⟨"docs/f.md"⟩, ⟨"docs/img.png"⟩, ⟨"src/x.md"⟩,
             ⟨"README.md"⟩, ⟨"docs/notes.txt"⟩]) =
      .attempted "https://api.github.com/repos/o/r/git/trees/s?recursive=1" 7 := by
  refine ⟨rfl, rfl, ?_⟩
  have h := c4_ghtree_count ⟨some "o", some "r", some "s", some "docs/", none⟩ "a@b.com"
    (some [⟨"docs/a.md"⟩, ⟨"docs/b.md"⟩, ⟨"docs/sub/c.md"⟩, ⟨"docs/d.md"⟩,
           ⟨"docs/e.md"⟩, ⟨"docs/f.md"⟩, ⟨"docs/img.png"⟩, ⟨"src/x.md"⟩,
           ⟨"README.md"⟩, ⟨"docs/notes.txt"⟩]) rfl rfl rfl
  exact h.trans (by decide)

/-- C5 counterexample: with `sha` absent, the `index.js` variant
(`solveGHTreeFromJson`) does not fail with a missing-parameter condition —
it attempts the tree-listing call with the text `undefined` interpolated
into the request URL and returns a count. -/
theorem c5_counterexample :
    solveGHTreeFromJson ⟨some "o", some "r", none, some "docs/", some ".md"⟩ "a@b.com" (some []) =
      .attempted "https://api.github.com/repos/o/r/git/trees/undefined?recursive=1" 1 := by
  decide

/-- C5 (amended): the `part_001` variant (`solveGHTreeFromParams`) fails
with the `missing-gh-params` condition, before any tree-listing request,
whenever any of `owner`, `repo`, `sha` is absent (or empty); the
`index.js` variant instead attempts the call with `undefined` in the URL. -/
theorem c5_v1_missing_params (p : GHParams) (email : String) (t : Option (List GHEntry))
    (h : jsFalsyStr p.owner = true ∨ jsFalsyStr p.repo = true ∨ jsFalsyStr p.sha = true) :
    solveGHTreeFromParams p email t = .missingParams "missing-gh-params" := by
  rcases h with h | h | h <;> simp [solveGHTreeFromParams, h]

/-- C5 witness: absent `sha` triggers the missing-parameter failure. -/
theorem c5_v1_missing_params_witness :
    solveGHTreeFromParams ⟨some "o", some "r", none, none, none⟩ "a@b.com" none =
      .missingParams "missing-gh-params" :=
  c5_v1_missing_params ⟨some "o", some "r", none, none, none⟩ "a@b.com" none
    (Or.inr (Or.inr rfl))

/-- C6: when some preformatted block parses as JSON, instruction
extraction returns the first such parse — strategy 1 (the block scan) —
regardless of the result container and of any script with a decodable
`atob` literal (strategy 2 is never consulted). -/
theorem c6_block_scan_priority (page : RenderedPage) (j : Json)
    (hpre : firstJsonPre page.preTexts = some j)
    (_hscript : ∃ s ∈ page.scripts, (findAtob s).isSome = true) :
    extractInstructionFromPage page = some j := by
  simp [extractInstructionFromPage, hpre]

/-- C6 witness: a page carrying an unparseable block, a block whose parse
is the falsy `0` (skipped by `if (j) return j`), a parseable object block,
and a script with a base64 `atob` literal; extraction returns the first
truthy block's JSON. -/
theorem c6_block_scan_priority_witness :
    extractInstructionFromPage
      ⟨["oops", "0", "\x7b\"task\": \"md\"\x7d"], some "<b>x</b>",
       ["window.init = atob(\"eyJ0YXNrIjoibWQifQ==\");"]⟩ =
      some (Json.obj [("task", Json.str "md")]) :=
  c6_block_scan_priority
    ⟨["oops", "0", "\x7b\"task\": \"md\"\x7d"], some "<b>x</b>",
     ["window.init = atob(\"eyJ0YXNrIjoibWQifQ==\");"]⟩
    (Json.obj [("task", Json.str "md")]) rfl
    ⟨"window.init = atob(\"eyJ0YXNrIjoibWQifQ==\");", by simp, rfl⟩

/-- C8 (amended): the chain orchestrator's submit gate (`solveChain`,
lines 471–491) makes no submission when the resolved answer is null, even
when a submit target is present — it never substitutes a default; the
secondary single-page solver (`solveQuizPage`, lines 596–634) however
defaults an unresolved answer to `0` and submits it whenever a submit URL
exists (see the counterexample). -/
theorem c8_null_answer_no_submit (tgt : Option String) (e s u : String) :
    stepSubmit tgt none e s u = none := by
  cases tgt <;> rfl

/-- C8 counterexample: an instruction whose `answer` is null and which no
strategy resolves (`{"answer": null, "submitUrl": …}`) makes the
`solveQuizPage` variant submit the default answer `0` to the submit URL —
refuting the claim that a null resolved answer is never submitted and that
`0` is never substituted. -/
theorem c8_counterexample :
    solveQuizPage_v2 ["\x7b\"answer\": null, \"submitUrl\": \"https://q.example/submit\"\x7d"]
      "e@x" "sec" "https://q.example/page" =
      .ok (.solved (Json.num 0)
        (some ("https://q.example/submit",
               payloadJson "e@x" "sec" "https://q.example/page" (Json.num 0)))) := rfl

/-- C9 counterexample: on the empty string, the `index.js`
`normalizeCSVText` does not return an array: `rows` is empty, `rows[0]`
is `undefined`, and `rows[0].map` throws a `TypeError` (modelled by
`none`). -/
theorem c9_counterexample : normalizeCSVText "" = none := rfl

/-- C9 (amended): `normalizeCSVText` of `index.js` throws exactly when the
trimmed input has no nonempty line (no header row) and returns an array on
every other string; the `part_001` variant additionally guards this case
and returns `[]`, so it is total. -/
theorem c9_totality (s : String) :
    (normalizeCSVText s = none ↔ csvRows s = []) ∧
    (csvRows s = [] → normalizeCSVText_v1 s = []) := by
  constructor
  · cases h : csvRows s <;> simp [normalizeCSVText, h]
  · intro h; simp [normalizeCSVText_v1, h]

/-- C9 witness: the guarded variant returns the empty array on the empty
string. -/
theorem c9_totality_witness : normalizeCSVText_v1 "" = [] :=
  (c9_totality "").2 rfl

/-- C10: a request body missing `email`, `secret` or `url` is answered
`400 {error: "missing-fields"}`, and a body whose (present, nonempty)
secret differs from the configured secret is answered
`403 {error: "invalid-secret"}`; both decisions are `rejected` values,
produced before the `runChain` branch — the only branch that launches a
browser or makes outbound requests — so rejection has no side effects.
An empty-string field is falsy in the source's `!email` test and is
likewise rejected with 400. -/
theorem c10_reject_before_effects (b : QuizReqBody) :
    ((b.email = none ∨ b.secret = none ∨ b.url = none) →
      quizEndpointGate b = .rejected 400 (Json.obj [("error", Json.str "missing-fields")])) ∧
    ((jsFalsyStr b.email = false ∧ jsFalsyStr b.secret = false ∧ jsFalsyStr b.url = false ∧
        b.secret ≠ some SECRET) →
      quizEndpointGate b = .rejected 403 (Json.obj [("error", Json.str "invalid-secret")])) := by
  constructor
  · intro h
    have hf : jsFalsyStr b.email = true ∨ jsFalsyStr b.secret = true ∨ jsFalsyStr b.url = true := by
      rcases h with h | h | h
      · exact Or.inl (by simp [jsFalsyStr, h])
      · exact Or.inr (Or.inl (by simp [jsFalsyStr, h]))
      · exact Or.inr (Or.inr (by simp [jsFalsyStr, h]))
    rcases hf with h1 | h1 | h1 <;> simp [quizEndpointGate, h1]
  · rintro ⟨h1, h2, h3, h4⟩
    simp [quizEndpointGate, h1, h2, h3, h4]

/-- C10 witness: a body with `email` absent is rejected 400; a complete
body with a wrong secret is rejected 403. -/
theorem c10_reject_before_effects_witness :
    quizEndpointGate ⟨none, some "x", some "u"⟩ =
      .rejected 400 (Json.obj [("error", Json.str "missing-fields")]) ∧
    quizEndpointGate ⟨some "a", some "wrong", some "u"⟩ =
      .rejected 403 (Json.obj [("error", Json.str "invalid-secret")]) :=
  ⟨(c10_reject_before_effects ⟨none, some "x", some "u"⟩).1 (Or.inl rfl),
   (c10_reject_before_effects ⟨some "a", some "wrong", some "u"⟩).2
     ⟨rfl, rfl, rfl, by decide⟩⟩

theorem utf8LenL_append (a b : List Char) : utf8LenL (a ++ b) = utf8LenL a + utf8LenL b := by
  induction a with
  | nil => simp [utf8LenL]
  | cons c rest ih => simp [utf8LenL, ih]; omega

theorem string_data_append (a b : String) : (a ++ b).data = a.data ++ b.data := rfl

theorem utf8Len_append (a b : String) : utf8Len (a ++ b) = utf8Len a + utf8Len b := by
  simp [utf8Len, string_data_append, utf8LenL_append]

theorem escapeJsonList_replicate_a (n : Nat) :
    escapeJsonList (List.replicate n 'a') = List.replicate n 'a' := by
  induction n with
  | zero => rfl
  | succ k ih =>
    have h : escapeJsonChar 'a' = ['a'] := rfl
    simp [List.replicate, escapeJsonList, h, ih]

theorem utf8LenL_replicate_a (n : Nat) : utf8LenL (List.replicate n 'a') = n := by
  induction n with
  | zero => rfl
  | succ k ih =>
    have h : ('a').utf8Size = 1 := rfl
    simp [List.replicate, utf8LenL, ih, h]
    omega

/-- C3: a submission whose serialized `{email, secret, url, answer}`
payload exceeds 1 MiB in UTF-8 bytes is not posted: no network request is
made and the step records `{error: "payload-too-large"}` as the submit
response, even though a submit target and an answer are both present. -/
theorem c3_payload_too_large (tgt : String) (a : Json) (e s u : String)
    (h1 : tgt.isEmpty = false)
    (h2 : 1024 * 1024 < utf8Len (jsonStringify (payloadJson e s u a))) :
    stepSubmit (some tgt) (some a) e s u =
      some (.tooLarge (Json.obj [("error", Json.str "payload-too-large")])) := by
  simp only [stepSubmit, h1, Bool.false_eq_true, if_false]
  rw [if_neg (by omega)]

/-- C3 witness: an answer of 2²⁰ characters makes the serialized payload
exceed the 1 MiB cap, and the step records the `payload-too-large`
marker. -/
theorem c3_payload_too_large_witness :
    stepSubmit (some "https://q.example/submit")
      (some (Json.str (String.mk (List.replicate 1048576 'a')))) "e@x.io" "sec"
      "https://q.example/1" =
      some (.tooLarge (Json.obj [("error", Json.str "payload-too-large")])) := by
  apply c3_payload_too_large
  · rfl
  · have hq : utf8Len (quoteJson (String.mk (List.replicate 1048576 'a'))) = 1048578 := by
      show utf8LenL (quoteChar :: escapeJsonList (List.replicate 1048576 'a') ++ [quoteChar]) = 1048578
      rewrite [escapeJsonList_replicate_a]
      have hcons : ∀ (c : Char) (l : List Char), utf8LenL (c :: l) = c.utf8Size + utf8LenL l :=
        fun c l => rfl
      rewrite [utf8LenL_append, hcons quoteChar (List.replicate 1048576 'a'), utf8LenL_replicate_a]
      have h1 : quoteChar.utf8Size = 1 := rfl
      have h2 : utf8LenL [quoteChar] = 1 := rfl
      omega
    simp only [payloadJson, jsonStringify, stringifyMembers, utf8Len_append, hq]
    omega

theorem toNat_ofNat_small {n : Nat} (h : n < 55296) : (Char.ofNat n).toNat = n := by
  simp [Char.ofNat, Nat.isValidChar, h, Char.toNat, Char.ofNatAux, UInt32.toNat,
    BitVec.toNat_ofNatLt]

theorem digitVal_lt_ten {c : Char} (h : isAsciiDigit c = true) : digitVal c < 10 := by
  simp [isAsciiDigit] at h
  simp [digitVal]
  omega

theorem decDigitsVal_aux_lt (ds : List Char) :
    ∀ a : Nat, ds.all isAsciiDigit = true →
      List.foldl (fun a c => a * 10 + digitVal c) a ds < (a + 1) * 10 ^ ds.length := by
  induction ds with
  | nil => intro a _; simp [Nat.lt_succ_self]
  | cons c rest ih =>
    intro a hall
    simp only [List.all_cons, Bool.and_eq_true] at hall
    have hd := digitVal_lt_ten hall.1
    have step := ih (a * 10 + digitVal c) hall.2
    have : (a * 10 + digitVal c + 1) * 10 ^ rest.length ≤ (a + 1) * 10 ^ (rest.length + 1) := by
      have h1 : a * 10 + digitVal c + 1 ≤ (a + 1) * 10 := by omega
      calc (a * 10 + digitVal c + 1) * 10 ^ rest.length
          ≤ ((a + 1) * 10) * 10 ^ rest.length := Nat.mul_le_mul_right _ h1
        _ = (a + 1) * 10 ^ (rest.length + 1) := by ring
    simp only [List.foldl_cons, List.length_cons]
    omega

theorem decDigitsVal_lt (ds : List Char) (hall : ds.all isAsciiDigit = true) :
    decDigitsVal ds < 10 ^ ds.length := by
  have := decDigitsVal_aux_lt ds 0 hall
  simpa [decDigitsVal] using this

theorem natDigits_all_digits (n : Nat) : (natDigits n).all isAsciiDigit = true := by
  induction n using natDigits.induct with
  | case1 n h =>
    rw [natDigits, dif_pos h]
    have : (Char.ofNat (48 + n)).toNat = 48 + n := toNat_ofNat_small (by omega)
    simp [isAsciiDigit, this]
    omega
  | case2 n h ih =>
    rw [natDigits, dif_neg h]
    have hm : n % 10 < 10 := Nat.mod_lt _ (by omega)
    have : (Char.ofNat (48 + n % 10)).toNat = 48 + n % 10 := toNat_ofNat_small (by omega)
    simp [List.all_append, ih, isAsciiDigit, this]
    omega

theorem natDigits_single {n : Nat} (h : n < 10) : natDigits n = [Char.ofNat (48 + n)] := by
  rw [natDigits, dif_pos h]

theorem natDigits_len2 {n : Nat} (h1 : 10 ≤ n) (h2 : n ≤ 99) : (natDigits n).length = 2 := by
  rw [natDigits, dif_neg (by omega)]
  have hq1 : 1 ≤ n / 10 := (Nat.le_div_iff_mul_le (by omega)).mpr (by omega)
  have hq2 : n / 10 < 10 := Nat.div_lt_of_lt_mul (by omega)
  simp [natDigits_single hq2]

theorem pad2_shape {m : Nat} (h : m ≤ 99) :
    (pad2 m).data.length = 2 ∧ (pad2 m).data.all isAsciiDigit = true := by
  have hd := natDigits_all_digits m
  by_cases hm : m < 10
  · rw [pad2, if_pos hm]
    rw [natDigits_single hm] at hd ⊢
    simp only [List.all_cons, List.all_nil, Bool.and_eq_true] at hd
    refine ⟨rfl, ?_⟩
    show (['0', Char.ofNat (48 + m)].all isAsciiDigit) = true
    simp only [List.all_cons, List.all_nil, Bool.and_eq_true]
    exact ⟨by decide, hd.1, trivial⟩
  · rw [pad2, if_neg hm]
    exact ⟨natDigits_len2 (by omega) h, hd⟩

theorem all_takeWhile (p : Char → Bool) : ∀ l : List Char, (l.takeWhile p).all p = true
  | [] => rfl
  | c :: rest => by
    simp only [List.takeWhile]
    cases hp : p c
    · rfl
    · simp [hp, all_takeWhile p rest]

/-- `takeWhile`/`dropWhile` on a list whose prefix satisfies `p` and whose
continuation starts with a character failing `p`. -/
theorem takeWhile_all_append (p : Char → Bool) (l1 l2 : List Char)
    (h1 : l1.all p = true)
    (h2 : match l2 with | [] => True | c :: _ => p c = false) :
    (l1 ++ l2).takeWhile p = l1 ∧ (l1 ++ l2).dropWhile p = l2 := by
  induction l1 with
  | nil =>
    simp only [List.nil_append]
    cases l2 with
    | nil => exact ⟨rfl, rfl⟩
    | cons c rest =>
      simp only at h2
      simp [List.takeWhile, List.dropWhile, h2]
  | cons c rest ih =>
    simp only [List.all_cons, Bool.and_eq_true] at h1
    have := ih h1.2
    simp [List.takeWhile, List.dropWhile, h1.1, this.1, this.2]

theorem natDigits_ne_nil (n : Nat) : natDigits n ≠ [] := by
  rw [natDigits]
  split <;> simp

theorem daysInMonth_le_31 (y m : Nat) : daysInMonth y m ≤ 31 := by
  unfold daysInMonth
  repeat' split
  all_goals omega

/-- The `${yyyy}-${mm}-${dd}` template output always has the dash-date
shape: a nonempty unpadded digit run for the year, then two two-digit
groups. -/
theorem formatYMD_shape {y : Int} {m d : Nat}
    (hy : 0 ≤ y) (hm : m ≤ 99) (hd : d ≤ 99) :
    isJsDateImageShape (formatYMD y m d) = true := by
  have hneg : ¬ y < 0 := by omega
  have hdata : (formatYMD y m d).data =
      natDigits y.toNat ++ '-' :: ((pad2 m).data ++ '-' :: (pad2 d).data) := by
    show (intToDecStr y ++ "-" ++ pad2 m ++ "-" ++ pad2 d).data = _
    rw [intToDecStr, if_neg hneg]
    simp [string_data_append]
  have htw := takeWhile_all_append isAsciiDigit (natDigits y.toNat)
      ('-' :: ((pad2 m).data ++ '-' :: (pad2 d).data))
      (natDigits_all_digits _) rfl
  obtain ⟨hm2, hma⟩ := pad2_shape hm
  obtain ⟨hd2, hda⟩ := pad2_shape hd
  unfold isJsDateImageShape
  rw [hdata, htw.1, htw.2]
  generalize hpm : (pad2 m).data = pm at hm2 hma
  generalize hpd : (pad2 d).data = pd at hd2 hda
  match pm, hm2 with
  | [e, f], _ =>
    match pd, hd2 with
    | [g, i], _ =>
      simp only [List.all_cons, List.all_nil, Bool.and_eq_true] at hma hda
      simp only [List.cons_append, List.nil_append]
      have hne := natDigits_ne_nil y.toNat
      simp [hne, hma.1, hma.2.1, hda.1, hda.2.1]

theorem jsDateParse_bounds {s : String} {y : Int} {m d : Nat}
    (h : jsDateParse s = some (y, m, d)) :
    0 ≤ y ∧ y ≤ 9999 ∧ 1 ≤ m ∧ m ≤ 12 ∧ 1 ≤ d ∧ d ≤ 31 := by
  unfold jsDateParse at h
  split at h
  next y1 y2 y3 y4 c1 m1 m2 c2 d1 d2 heq =>
    have hle := daysInMonth_le_31 (decDigitsVal [y1, y2, y3, y4]) (decDigitsVal [m1, m2])
    repeat' split at h
    all_goals simp_all
    have h4 : ([y1, y2, y3, y4].all isAsciiDigit) = true := by simp_all
    have hylt := decDigitsVal_lt [y1, y2, y3, y4] h4
    simp at hylt
    have hle2 := daysInMonth_le_31 (decDigitsVal [y1, y2, y3, y4]) (decDigitsVal [m1, m2])
    omega
  next => simp at h

theorem isoDateStr_shape (c : String) :
    isoDateStr c = c ∨ isJsDateImageShape (isoDateStr c) = true := by
  unfold isoDateStr
  cases hp : jsDateParse c with
  | none => exact Or.inl rfl
  | some t =>
    right
    obtain ⟨y, m, d⟩ := t
    obtain ⟨b1, b2, b3, b4, b5, b6⟩ := jsDateParse_bounds hp
    exact formatYMD_shape b1 (by omega) (by omega)

theorem lookupLast_map_inv {α : Type} (kf : α → String) (vf : α → JsVal) (t : String) :
    ∀ (l : List α) (v : JsVal),
      lookupLast t (l.map (fun p => (kf p, vf p))) = some v →
      ∃ p ∈ l, kf p = t ∧ v = vf p := by
  intro l
  induction l with
  | nil => intro v h; simp [lookupLast] at h
  | cons a rest ih =>
    intro v h
    simp only [List.map_cons, lookupLast] at h
    cases hrec : lookupLast t (rest.map (fun p => (kf p, vf p))) with
    | some w =>
      rw [hrec] at h
      obtain ⟨p, hp, hk, hv⟩ := ih w hrec
      cases h
      exact ⟨p, List.mem_cons_of_mem _ hp, hk, hv⟩
    | none =>
      rw [hrec] at h
      by_cases hk : kf a = t
      · rw [if_pos hk] at h
        cases h
        exact ⟨a, List.mem_cons_self _ _, hk, rfl⟩
      · rw [if_neg hk] at h
        simp at h

theorem snakeAux_false_inv : ∀ (l m : List Char), snakeAux false l = m → ('_' ∈ m → False) → l = m
  | [], m, h, _ => by simpa [snakeAux] using h
  | c :: rest, m, h, hmem => by
    rw [snakeAux] at h
    by_cases hc : isAsciiAlnum c = true
    · rw [if_pos hc] at h
      cases m with
      | nil => simp at h
      | cons m0 mrest =>
        simp only [List.cons.injEq] at h
        obtain ⟨h1, h2⟩ := h
        have := snakeAux_false_inv rest mrest h2
          (fun hm => hmem (List.mem_cons_of_mem _ hm))
        rw [h1, this]
    · rw [if_neg hc] at h
      exfalso
      apply hmem
      rw [← h]
      exact List.mem_cons_self _ _

theorem snakeKey_eq_target {k t : String} (hut : '_' ∈ t.data → False)
    (h : snakeKey k = t) : k = t := by
  have hdata : snakeAux false k.data = t.data := by
    have := congrArg String.data h
    simpa [snakeKey] using this
  have hkt := snakeAux_false_inv k.data t.data hdata hut
  cases k
  cases t
  exact congrArg String.mk hkt

theorem coerceCell_key_id (e : Bool) (c : String) : coerceCell e "id" c = jsParseIntVal c := by
  have h1 : strContains "id" "id" = true := rfl
  have h2 : strContains "id" "value" = false := rfl
  have h3 : strContains "id" "joined" = false := rfl
  have h4 : strContains "id" "date" = false := rfl
  have h5 : strContains "id" "created" = false := rfl
  cases e <;> simp [coerceCell, h1, h2, h3, h4, h5]

theorem coerceCell_key_name (e : Bool) (c : String) : coerceCell e "name" c = .str c := by
  have h1 : strContains "name" "id" = false := rfl
  have h2 : strContains "name" "value" = false := rfl
  have h3 : strContains "name" "joined" = false := rfl
  have h4 : strContains "name" "date" = false := rfl
  have h5 : strContains "name" "created" = false := rfl
  cases e <;> simp [coerceCell, h1, h2, h3, h4, h5]

theorem coerceCell_key_joined (e : Bool) (c : String) :
    coerceCell e "joined" c = .str (isoDateStr c) := by
  have h1 : strContains "joined" "id" = false := rfl
  have h2 : strContains "joined" "value" = false := rfl
  have h3 : strContains "joined" "joined" = true := rfl
  cases e <;> simp [coerceCell, h1, h2, h3, isoDateVal]

theorem jsOrZero_num (v : JsVal) : ∃ n : Int, jsOrZero v = .num n := by
  cases v <;> exact ⟨_, rfl⟩

theorem coerceCell_key_value (e : Bool) (c : String) :
    ∃ n : Int, coerceCell e "value" c = .num n := by
  have h1 : strContains "value" "id" = false := rfl
  have h2 : strContains "value" "value" = true := rfl
  have h3 : strContains "value" "joined" = false := rfl
  have h4 : strContains "value" "date" = false := rfl
  have h5 : strContains "value" "created" = false := rfl
  cases e <;> simp [coerceCell, h1, h2, h3, h4, h5] <;> apply jsOrZero_num

theorem buildRec_eq (e : Bool) (h row : List String) :
    buildRec e h row =
      (h.zip row).map (fun p => (snakeKey (jsLower p.1), coerceCell e (jsLower p.1) p.2)) := rfl

theorem lookupLast_buildRec {t : String} {v : JsVal} (e : Bool) (h row : List String)
    (hl : lookupLast t (buildRec e h row) = some v) :
    ∃ p ∈ h.zip row, snakeKey (jsLower p.1) = t ∧ v = coerceCell e (jsLower p.1) p.2 := by
  rw [buildRec_eq] at hl
  exact lookupLast_map_inv _ _ t _ v hl

/-- A cell passing `idCellOkB` in particular parses to a number (not `NaN`). -/
theorem idCellOkB_num (c : String) (h : idCellOkB c = true) :
    isNumVal (jsParseIntVal c) = true := by
  unfold idCellOkB at h
  unfold jsParseIntVal
  cases hx : jsParseInt c.data with
  | none => rw [hx] at h; simp at h
  | some n => rfl

theorem recOfRow_id (e : Bool) (h : List String) (i : Nat) (row : List String)
    (hid : (h.zip row).all
      (fun p => !(snakeKey (jsLower p.1) = "id") || isNumVal (jsParseIntVal p.2)) = true) :
    isNumVal (recOfRow e h i row).id = true := by
  show isNumVal ((lookupLast "id" (buildRec e h row)).getD (.num (i : Int))) = true
  cases hl : lookupLast "id" (buildRec e h row) with
  | none => rfl
  | some v =>
    obtain ⟨p, hp, hk, hv⟩ := lookupLast_buildRec e h row hl
    have hkey : jsLower p.1 = "id" := snakeKey_eq_target (by decide) hk
    rw [List.all_eq_true] at hid
    have hnum := hid p hp
    simp only [hk, decide_True, Bool.not_true, Bool.false_or] at hnum
    simp only [Option.getD_some, hv, hkey, coerceCell_key_id]
    exact hnum

theorem recOfRow_name (e : Bool) (h : List String) (i : Nat) (row : List String) :
    ∃ s, (recOfRow e h i row).name = .str s := by
  show ∃ s, (lookupLast "name" (buildRec e h row)).getD (.str "") = .str s
  cases hl : lookupLast "name" (buildRec e h row) with
  | none => exact ⟨"", rfl⟩
  | some v =>
    obtain ⟨p, hp, hk, hv⟩ := lookupLast_buildRec e h row hl
    have hkey : jsLower p.1 = "name" := snakeKey_eq_target (by decide) hk
    rw [hv, hkey, coerceCell_key_name]
    exact ⟨p.2, rfl⟩

theorem recOfRow_value (e : Bool) (h : List String) (i : Nat) (row : List String) :
    ∃ n : Int, (recOfRow e h i row).value = .num n := by
  show ∃ n : Int, (lookupLast "value" (buildRec e h row)).getD (.num 0) = .num n
  cases hl : lookupLast "value" (buildRec e h row) with
  | none => exact ⟨0, rfl⟩
  | some v =>
    obtain ⟨p, hp, hk, hv⟩ := lookupLast_buildRec e h row hl
    have hkey : jsLower p.1 = "value" := snakeKey_eq_target (by decide) hk
    rw [hv, hkey]
    simpa using coerceCell_key_value e p.2

theorem recOfRow_joined (e : Bool) (h : List String) (i : Nat) (row : List String) :
    (recOfRow e h i row).joined = .null ∨
      ∃ c, c ∈ row ∧ (recOfRow e h i row).joined = .str (isoDateStr c) := by
  show (lookupLast "joined" (buildRec e h row)).getD .null = .null ∨
    ∃ c, c ∈ row ∧ (lookupLast "joined" (buildRec e h row)).getD .null = .str (isoDateStr c)
  cases hl : lookupLast "joined" (buildRec e h row) with
  | none => exact Or.inl rfl
  | some v =>
    right
    obtain ⟨p, hp, hk, hv⟩ := lookupLast_buildRec e h row hl
    obtain ⟨p1, p2⟩ := p
    have hkey : jsLower p1 = "joined" := snakeKey_eq_target (by decide) hk
    refine ⟨p2, (List.of_mem_zip hp).2, ?_⟩
    simp only [Option.getD_some, hv, hkey, coerceCell_key_joined]

theorem mem_insertById {a x : CsvRec} : ∀ {l : List CsvRec},
    a ∈ insertById x l ↔ a = x ∨ a ∈ l := by
  intro l
  induction l with
  | nil => simp [insertById]
  | cons y ys ih =>
    simp only [insertById]
    by_cases hle : leById x y = true
    · rw [if_pos hle]
      simp [List.mem_cons]
    · rw [if_neg hle]
      simp only [List.mem_cons, ih]
      tauto

theorem length_insertById (x : CsvRec) : ∀ (l : List CsvRec),
    (insertById x l).length = l.length + 1
  | [] => rfl
  | y :: ys => by
    simp only [insertById]
    by_cases hle : leById x y = true
    · rw [if_pos hle]; rfl
    · rw [if_neg hle]
      simp [length_insertById x ys]

theorem length_sortById : ∀ (l : List CsvRec), (sortById l).length = l.length
  | [] => rfl
  | x :: xs => by
    simp only [sortById]
    rw [length_insertById, length_sortById xs]
    rfl

theorem mem_sortById {a : CsvRec} : ∀ {l : List CsvRec}, a ∈ sortById l ↔ a ∈ l := by
  intro l
  induction l with
  | nil => simp [sortById]
  | cons x xs ih => simp [sortById, mem_insertById, ih]

theorem leById_iff_of_num {a b : CsvRec} (ha : isNumVal a.id = true)
    (hb : isNumVal b.id = true) : leById a b = true ↔ recIdInt a ≤ recIdInt b := by
  cases hida : a.id <;> cases hidb : b.id <;>
    simp_all [isNumVal, leById, jsCmpId, recIdInt]

theorem pairwise_insertById {x : CsvRec} {l : List CsvRec}
    (hx : isNumVal x.id = true) (hl : ∀ a ∈ l, isNumVal a.id = true)
    (hp : l.Pairwise (fun a b => recIdInt a ≤ recIdInt b)) :
    (insertById x l).Pairwise (fun a b => recIdInt a ≤ recIdInt b) := by
  induction l with
  | nil => simp [insertById]
  | cons y ys ih =>
    have hy := hl y (List.mem_cons_self _ _)
    have hys : ∀ a ∈ ys, isNumVal a.id = true := fun a ha => hl a (List.mem_cons_of_mem _ ha)
    rw [List.pairwise_cons] at hp
    obtain ⟨hyz, hpys⟩ := hp
    simp only [insertById]
    by_cases hle : leById x y = true
    · rw [if_pos hle]
      rw [List.pairwise_cons]
      constructor
      · intro b hb
        rcases List.mem_cons.mp hb with rfl | hb2
        · exact (leById_iff_of_num hx hy).mp hle
        · exact le_trans ((leById_iff_of_num hx hy).mp hle) (hyz b hb2)
      · rw [List.pairwise_cons]
        exact ⟨hyz, hpys⟩
    · rw [if_neg hle]
      have hxy : recIdInt y ≤ recIdInt x := by
        have hnot : ¬ (recIdInt x ≤ recIdInt y) :=
          fun hc => hle ((leById_iff_of_num hx hy).mpr hc)
        omega
      rw [List.pairwise_cons]
      constructor
      · intro b hb
        rcases mem_insertById.mp hb with rfl | hb2
        · exact hxy
        · exact hyz b hb2
      · exact ih hys hpys

theorem pairwise_sortById {l : List CsvRec} (hl : ∀ a ∈ l, isNumVal a.id = true) :
    (sortById l).Pairwise (fun a b => recIdInt a ≤ recIdInt b) := by
  induction l with
  | nil => simp [sortById]
  | cons x xs ih =>
    simp only [sortById]
    exact pairwise_insertById (hl x (List.mem_cons_self _ _))
      (fun a ha => hl a (List.mem_cons_of_mem _ (mem_sortById.mp ha)))
      (ih (fun a ha => hl a (List.mem_cons_of_mem _ ha)))

theorem normalizeGo_length_le (e : Bool) (header : List String) :
    ∀ (i : Nat) (rows : List (List String)),
      (normalizeGo e header i rows).length ≤ rows.length
  | _, [] => Nat.le_refl _
  | i, row :: rest => by
    simp only [normalizeGo]
    by_cases hc : row.length = header.length
    · rw [if_pos hc]
      simpa using Nat.succ_le_succ (normalizeGo_length_le e header (i + 1) rest)
    · rw [if_neg hc]
      exact Nat.le_succ_of_le (normalizeGo_length_le e header (i + 1) rest)

theorem mem_normalizeGo {r : CsvRec} (e : Bool) (header : List String) :
    ∀ (i : Nat) (rows : List (List String)), r ∈ normalizeGo e header i rows →
      ∃ (j : Nat) (row : List String), row ∈ rows ∧ r = recOfRow e header j row
  | i, [], h => by simp [normalizeGo] at h
  | i, row :: rest, h => by
    simp only [normalizeGo] at h
    by_cases hc : row.length = header.length
    · rw [if_pos hc] at h
      rcases List.mem_cons.mp h with rfl | h2
      · exact ⟨i, row, List.mem_cons_self _ _, rfl⟩
      · obtain ⟨j, row2, hmem, heq⟩ := mem_normalizeGo e header (i + 1) rest h2
        exact ⟨j, row2, List.mem_cons_of_mem _ hmem, heq⟩
    · rw [if_neg hc] at h
      obtain ⟨j, row2, hmem, heq⟩ := mem_normalizeGo e header (i + 1) rest h
      exact ⟨j, row2, List.mem_cons_of_mem _ hmem, heq⟩

/-- C1 (amended): for CSV text with a header line and `N` data lines
whose column count equals the header's, in which every cell of a column
keyed exactly `id` parses under `parseInt` to an integer of magnitude
below `2^53` (without the parseability proviso a non-numeric id cell
yields `NaN`, which is not an integer, and the sort comparator
degenerates — see the counterexample; beyond `2^53` the double result is
rounded, and past about 309 digits it is `Infinity`), and every cell of a
column keyed exactly `value` strip-parses to `NaN` or an integer below
`2^53`, `normalizeCSVText` returns at most `N` records, each with exactly
the fields `{id, name, joined, value}` (by construction of `CsvRec`),
where `id` is an integer, `name` a string, `value` an integer, and
`joined` is either `null` (when no joined/date/created-keyed column
provides it) or the `isoDate` image of an original cell — that cell's
original text, or a `${yyyy}-${mm}-${dd}` dash-date string whose year is
printed unpadded (`"0999-01-05"` becomes `"999-01-05"`, not ISO
`YYYY-MM-DD`); the array is sorted ascending by `id`.  The `id` coercion
applies to columns named exactly `id` (in the `part_001` variant) or
containing `id` (in `index.js`) — observably equivalent, since only a
column whose snake-cased name is exactly `id` reaches the output, and the
`value` coercion applies to any column whose name contains `value`. -/
theorem c1_csv_normalization (csv : String) (N : Nat)
    (hlen : (csvRows csv).length = N + 1)
    (_hcols : ((csvRows csv).tail).all
      (fun r => r.length = ((csvRows csv).headD []).length) = true)
    (hid : idCellsOk csv = true) (_hval : valueCellsOk csv = true) :
    ∃ out, normalizeCSVText csv = some out ∧
      out.length ≤ N ∧
      (∀ r ∈ out, isNumVal r.id = true) ∧
      (∀ r ∈ out, ∃ s, r.name = JsVal.str s) ∧
      (∀ r ∈ out, ∃ n : Int, r.value = JsVal.num n) ∧
      (∀ r ∈ out, r.joined = JsVal.null ∨
        ∃ c, (∃ row ∈ (csvRows csv).tail, c ∈ row) ∧
          r.joined = JsVal.str (isoDateStr c) ∧
          (isoDateStr c = c ∨ isJsDateImageShape (isoDateStr c) = true)) ∧
      out.Pairwise (fun a b => recIdInt a ≤ recIdInt b) := by
  cases hrows : csvRows csv with
  | nil => rw [hrows] at hlen; simp at hlen
  | cons hdr dataRows =>
    have hN : dataRows.length = N := by
      rw [hrows] at hlen
      simpa using hlen
    have hout : normalizeCSVText csv =
        some (sortById (normalizeGo false (hdr.map cleanHeaderCell) 1 dataRows)) := by
      unfold normalizeCSVText
      rw [hrows]
    unfold idCellsOk at hid
    rw [hrows] at hid
    simp only [List.all_eq_true] at hid
    have hrowid : ∀ row ∈ dataRows,
        ((hdr.map cleanHeaderCell).zip row).all
          (fun p => !(snakeKey (jsLower p.1) = "id") || isNumVal (jsParseIntVal p.2)) = true := by
      intro row hrow
      rw [List.all_eq_true]
      intro p hp
      have hcell := hid row hrow p hp
      simp only [Bool.or_eq_true] at hcell ⊢
      rcases hcell with hnot | hok
      · exact Or.inl hnot
      · exact Or.inr (idCellOkB_num p.2 hok)
    have hmem : ∀ r ∈ sortById (normalizeGo false (hdr.map cleanHeaderCell) 1 dataRows),
        ∃ (j : Nat) (row : List String), row ∈ dataRows ∧
          r = recOfRow false (hdr.map cleanHeaderCell) j row := by
      intro r hr
      exact mem_normalizeGo false _ 1 dataRows (mem_sortById.mp hr)
    have hnums : ∀ r ∈ sortById (normalizeGo false (hdr.map cleanHeaderCell) 1 dataRows),
        isNumVal r.id = true := by
      intro r hr
      obtain ⟨j, row, hrow, rfl⟩ := hmem r hr
      exact recOfRow_id false _ j row (hrowid row hrow)
    refine ⟨_, hout, ?_, hnums, ?_, ?_, ?_, ?_⟩
    · rw [length_sortById]
      rw [← hN]
      exact normalizeGo_length_le false _ 1 dataRows
    · intro r hr
      obtain ⟨j, row, hrow, rfl⟩ := hmem r hr
      exact recOfRow_name false _ j row
    · intro r hr
      obtain ⟨j, row, hrow, rfl⟩ := hmem r hr
      exact recOfRow_value false _ j row
    · intro r hr
      obtain ⟨j, row, hrow, rfl⟩ := hmem r hr
      rcases recOfRow_joined false (hdr.map cleanHeaderCell) j row with hj | ⟨c, hc, hj⟩
      · exact Or.inl hj
      · refine Or.inr ⟨c, ⟨row, ?_, hc⟩, hj, isoDateStr_shape c⟩
        simpa [hrows] using hrow
    · apply pairwise_sortById
      intro a ha
      obtain ⟨j, row, hrow, rfl⟩ := hmem a (mem_sortById.mpr ha)
      exact recOfRow_id false _ j row (hrowid row hrow)

/-- C1 counterexample: the input `"id,name\nabc,bob"` is a valid CSV text
(header plus one data line of matching column count), yet normalization
produces a record whose `id` is `NaN` — `parseInt("abc")` — not an
integer, and whose `joined` is `null` rather than an ISO string or
original cell text; this refutes the claim as stated. -/
theorem c1_counterexample :
    (csvRows "id,name\nabc,bob").length = 1 + 1 ∧
    ((csvRows "id,name\nabc,bob").tail).all
      (fun r => r.length = ((csvRows "id,name\nabc,bob").headD []).length) = true ∧
    normalizeCSVText "id,name\nabc,bob" =
      some [⟨JsVal.nan, JsVal.str "bob", JsVal.null, JsVal.num 0⟩] ∧
    isNumVal JsVal.nan = false := by
  refine ⟨rfl, rfl, rfl, rfl⟩

/-- C1 witness: a concrete CSV with small integer ids, a date column
(including a `"0999-01-05"` cell whose `isoDate` image `"999-01-05"` has
an unpadded three-digit year) and a currency-decorated value column
satisfies the amended claim's hypotheses and conclusion. -/
theorem c1_csv_normalization_witness :
    (csvRows "id,name,joined,value\n2,bob,2023-01-05,$30\n1,alice,0999-01-05,7x").length = 2 + 1 ∧
    idCellsOk "id,name,joined,value\n2,bob,2023-01-05,$30\n1,alice,0999-01-05,7x" = true ∧
    valueCellsOk "id,name,joined,value\n2,bob,2023-01-05,$30\n1,alice,0999-01-05,7x" = true ∧
    (∃ out, normalizeCSVText "id,name,joined,value\n2,bob,2023-01-05,$30\n1,alice,0999-01-05,7x" =
        some out ∧
      out.length ≤ 2 ∧
      (∀ r ∈ out, isNumVal r.id = true) ∧
      (∀ r ∈ out, ∃ s, r.name = JsVal.str s) ∧
      (∀ r ∈ out, ∃ n : Int, r.value = JsVal.num n) ∧
      (∀ r ∈ out, r.joined = JsVal.null ∨
        ∃ c, (∃ row ∈ (csvRows "id,name,joined,value\n2,bob,2023-01-05,$30\n1,alice,0999-01-05,7x").tail,
            c ∈ row) ∧
          r.joined = JsVal.str (isoDateStr c) ∧
          (isoDateStr c = c ∨ isJsDateImageShape (isoDateStr c) = true)) ∧
      out.Pairwise (fun a b => recIdInt a ≤ recIdInt b)) := by
  refine ⟨rfl, rfl, rfl, ?_⟩
  exact c1_csv_normalization "id,name,joined,value\n2,bob,2023-01-05,$30\n1,alice,0999-01-05,7x" 2
    rfl rfl rfl rfl

theorem letter_not_ws {c : Char} (h : isAsciiLetter c = true) : isJsWs c = false := by
  simp [isAsciiLetter, isAsciiLower, isAsciiUpper] at h
  simp [isJsWs]
  omega

theorem digit_not_ws {c : Char} (h : isAsciiDigit c = true) : isJsWs c = false := by
  simp [isAsciiDigit] at h
  simp [isJsWs]
  omega

theorem ws_not_letter {c : Char} (h : isJsWs c = true) : isAsciiLetter c = false := by
  simp [isJsWs] at h
  simp [isAsciiLetter, isAsciiLower, isAsciiUpper]
  omega

theorem matchTwoWordsAt_sound {l m1 d : List Char}
    (h : matchTwoWordsAt l = some (m1, d)) :
    ∃ w1 sp1 w2 sp2 rest,
      l = w1 ++ sp1 ++ w2 ++ sp2 ++ d ++ rest ∧
      m1 = w1 ++ sp1 ++ w2 ∧
      3 ≤ w1.length ∧ w1.all isAsciiLetter = true ∧
      sp1 ≠ [] ∧ sp1.all isJsWs = true ∧
      3 ≤ w2.length ∧ w2.all isAsciiLetter = true ∧
      sp2 ≠ [] ∧ sp2.all isJsWs = true ∧
      d.length = 3 ∧ d.all isAsciiDigit = true := by
  unfold matchTwoWordsAt at h
  by_cases hw1 : (l.takeWhile isAsciiLetter).length < 3
  · rw [if_pos hw1] at h; simp at h
  rw [if_neg hw1] at h
  by_cases hsp1 : ((l.dropWhile isAsciiLetter).takeWhile isJsWs).isEmpty = true
  · rw [if_pos hsp1] at h; simp at h
  rw [if_neg hsp1] at h
  by_cases hw2 : (((l.dropWhile isAsciiLetter).dropWhile isJsWs).takeWhile isAsciiLetter).length < 3
  · rw [if_pos hw2] at h; simp at h
  rw [if_neg hw2] at h
  by_cases hsp2 : ((((l.dropWhile isAsciiLetter).dropWhile isJsWs).dropWhile isAsciiLetter).takeWhile isJsWs).isEmpty = true
  · rw [if_pos hsp2] at h; simp at h
  rw [if_neg hsp2] at h
  cases hr4 : (((l.dropWhile isAsciiLetter).dropWhile isJsWs).dropWhile isAsciiLetter).dropWhile isJsWs with
  | nil => rw [hr4] at h; simp at h
  | cons d1 r5 =>
    cases r5 with
    | nil => rw [hr4] at h; simp at h
    | cons d2 r6 =>
      cases r6 with
      | nil => rw [hr4] at h; simp at h
      | cons d3 r7 =>
        rw [hr4] at h
        simp at h
        obtain ⟨hdig, hm1, hd⟩ := h
        refine ⟨l.takeWhile isAsciiLetter,
          (l.dropWhile isAsciiLetter).takeWhile isJsWs,
          ((l.dropWhile isAsciiLetter).dropWhile isJsWs).takeWhile isAsciiLetter,
          (((l.dropWhile isAsciiLetter).dropWhile isJsWs).dropWhile isAsciiLetter).takeWhile isJsWs,
          r7, ?_, ?_, by omega, all_takeWhile _ _, ?_, all_takeWhile _ _,
          by omega, all_takeWhile _ _, ?_, all_takeWhile _ _, ?_, ?_⟩
        · rw [← hd]
          conv_lhs => rw [← List.takeWhile_append_dropWhile (p := isAsciiLetter) (l := l),
            ← List.takeWhile_append_dropWhile (p := isJsWs) (l := l.dropWhile isAsciiLetter),
            ← List.takeWhile_append_dropWhile (p := isAsciiLetter)
              (l := (l.dropWhile isAsciiLetter).dropWhile isJsWs),
            ← List.takeWhile_append_dropWhile (p := isJsWs)
              (l := ((l.dropWhile isAsciiLetter).dropWhile isJsWs).dropWhile isAsciiLetter),
            hr4]
          simp [List.append_assoc]
        · rw [← hm1]
          simp [List.append_assoc]
        · simpa using hsp1
        · simpa using hsp2
        · rw [← hd]
          simp
        · rw [← hd]
          simp [hdig.1.1, hdig.1.2, hdig.2]

theorem matchTwoWordsAt_complete {l : List Char} (h : TwoWordPhrase l) :
    (matchTwoWordsAt l).isSome = true := by
  obtain ⟨w1, sp1, w2, sp2, d, rest, heq, hw1len, hw1all, hsp1ne, hsp1all, hw2len, hw2all,
    hsp2ne, hsp2all, hdlen, hdall⟩ := h
  obtain ⟨s0, sp1t, rfl⟩ := List.exists_cons_of_ne_nil hsp1ne
  obtain ⟨t0, sp2t, rfl⟩ := List.exists_cons_of_ne_nil hsp2ne
  have hw2ne : w2 ≠ [] := by
    intro hw
    rw [hw] at hw2len
    simp at hw2len
  obtain ⟨u0, w2t, rfl⟩ := List.exists_cons_of_ne_nil hw2ne
  obtain ⟨d1, d2, d3, rfl⟩ : ∃ d1 d2 d3, d = [d1, d2, d3] := by
    match d, hdlen with
    | [a, b, c], _ => exact ⟨a, b, c, rfl⟩
  subst heq
  rw [List.all_cons, Bool.and_eq_true] at hsp1all hsp2all
  obtain ⟨hs0, hsp1t⟩ := hsp1all
  obtain ⟨ht0, hsp2t⟩ := hsp2all
  have hd1 : isAsciiDigit d1 = true := by
    simp only [List.all_cons, Bool.and_eq_true] at hdall
    exact hdall.1
  have hu0 : isAsciiLetter u0 = true := by
    simp only [List.all_cons, Bool.and_eq_true] at hw2all
    exact hw2all.1
  have hassoc : ((((w1 ++ (s0 :: sp1t)) ++ (u0 :: w2t)) ++ (t0 :: sp2t)) ++ [d1, d2, d3]) ++ rest =
      w1 ++ ((s0 :: sp1t) ++ ((u0 :: w2t) ++ ((t0 :: sp2t) ++ ([d1, d2, d3] ++ rest)))) := by
    simp [List.append_assoc]
  rw [hassoc]
  have h1 := takeWhile_all_append isAsciiLetter w1
    ((s0 :: sp1t) ++ ((u0 :: w2t) ++ ((t0 :: sp2t) ++ ([d1, d2, d3] ++ rest)))) hw1all
    (by simpa using ws_not_letter hs0)
  have h2 := takeWhile_all_append isJsWs (s0 :: sp1t)
    ((u0 :: w2t) ++ ((t0 :: sp2t) ++ ([d1, d2, d3] ++ rest)))
    (by simp [List.all_cons, hs0, hsp1t])
    (by simpa using letter_not_ws hu0)
  have h3 := takeWhile_all_append isAsciiLetter (u0 :: w2t)
    ((t0 :: sp2t) ++ ([d1, d2, d3] ++ rest)) hw2all
    (by simpa using ws_not_letter ht0)
  have h4 := takeWhile_all_append isJsWs (t0 :: sp2t) ([d1, d2, d3] ++ rest)
    (by simp [List.all_cons, ht0, hsp2t])
    (by simpa using digit_not_ws hd1)
  unfold matchTwoWordsAt
  simp only [List.cons_append, List.append_assoc, List.nil_append] at h1 h2 h3 h4 ⊢
  simp only [h1.1, h1.2, h2.1, h2.2, h3.1, h3.2, h4.1, h4.2]
  rw [if_neg (show ¬ w1.length < 3 by omega)]
  rw [if_neg (show ¬ (s0 :: sp1t).isEmpty = true by simp)]
  rw [if_neg (show ¬ (u0 :: w2t).length < 3 by omega)]
  rw [if_neg (show ¬ (t0 :: sp2t).isEmpty = true by simp)]
  simp only [List.all_cons, Bool.and_eq_true] at hdall
  simp [hdall.1, hdall.2.1, hdall.2.2.1]

theorem audioScanMain_none_iff : ∀ l : List Char,
    audioScanMain l = none ↔ ∀ k, matchTwoWordsAt (l.drop k) = none
  | [] => by
    simp [audioScanMain]
    rfl
  | c :: t => by
    simp only [audioScanMain]
    cases hm : matchTwoWordsAt (c :: t) with
    | some m =>
      constructor
      · intro h
        simp at h
      · intro h
        have h0 := h 0
        simp [hm] at h0
    | none =>
      rw [audioScanMain_none_iff t]
      constructor
      · intro h k
        cases k with
        | zero => simpa using hm
        | succ k2 => simpa using h k2
      · intro h k
        have := h (k + 1)
        simpa using this

theorem audioScanMain_some : ∀ {l : List Char} {m : List Char × List Char},
    audioScanMain l = some m →
      ∃ k, matchTwoWordsAt (l.drop k) = some m ∧
        ∀ j < k, matchTwoWordsAt (l.drop j) = none
  | [], m, h => by simp [audioScanMain] at h
  | c :: t, m, h => by
    simp only [audioScanMain] at h
    cases hm : matchTwoWordsAt (c :: t) with
    | some m2 =>
      rw [hm] at h
      cases h
      exact ⟨0, hm, by omega⟩
    | none =>
      rw [hm] at h
      obtain ⟨k, h1, h2⟩ := audioScanMain_some h
      refine ⟨k + 1, by simpa using h1, ?_⟩
      intro j hj
      cases j with
      | zero => simpa using hm
      | succ j2 =>
        have := h2 j2 (by omega)
        simpa using this

/-- C7 (amended): `solveAudioPassphrase` of `index.js` returns `null`
exactly when the visible text contains no occurrence of its actual
pattern — two whitespace-separated words of at least three letters (any
case) followed by whitespace and three digits — and on success returns
the leftmost such occurrence with the two words lowercased and their
original inner whitespace preserved verbatim, joined to the three digits
by a single space.  (The claim's "1–3 lowercase words" and "normalized to
single spaces" both fail on this code: see the counterexample; the
`part_001` variant accepts 1–3 words of ≥ 2 letters but also preserves
inner whitespace.) -/
theorem c7_audio_characterization (s : String) :
    (solveAudioPassphrase s = none ↔ ∀ k, ¬ TwoWordPhrase (s.data.drop k)) ∧
    (∀ r, solveAudioPassphrase s = some r →
      ∃ k w1 sp1 w2 sp2 d rest,
        s.data.drop k = w1 ++ sp1 ++ w2 ++ sp2 ++ d ++ rest ∧
        (∀ j < k, ¬ TwoWordPhrase (s.data.drop j)) ∧
        3 ≤ w1.length ∧ w1.all isAsciiLetter = true ∧
        sp1 ≠ [] ∧ sp1.all isJsWs = true ∧
        3 ≤ w2.length ∧ w2.all isAsciiLetter = true ∧
        sp2 ≠ [] ∧ sp2.all isJsWs = true ∧
        d.length = 3 ∧ d.all isAsciiDigit = true ∧
        r = String.mk ((w1 ++ sp1 ++ w2).map jsLowerChar) ++ " " ++ String.mk d) := by
  have hiff := audioScanMain_none_iff s.data
  constructor
  · constructor
    · intro h k htwp
      have hnone : audioScanMain s.data = none := by
        unfold solveAudioPassphrase at h
        cases hsc : audioScanMain s.data with
        | none => rfl
        | some m => rw [hsc] at h; simp at h
      have hmk := (hiff.mp hnone) k
      have hsome := matchTwoWordsAt_complete htwp
      rw [hmk] at hsome
      simp at hsome
    · intro h
      unfold solveAudioPassphrase
      have hnone : audioScanMain s.data = none := by
        rw [hiff]
        intro k
        cases hmk : matchTwoWordsAt (s.data.drop k) with
        | none => rfl
        | some m =>
          exfalso
          apply h k
          obtain ⟨m1, dd⟩ := m
          obtain ⟨w1, sp1, w2, sp2, rest, heq, _, p1, p2, p3, p4, p5, p6, p7, p8, p9, p10⟩ :=
            matchTwoWordsAt_sound hmk
          exact ⟨w1, sp1, w2, sp2, dd, rest, heq, p1, p2, p3, p4, p5, p6, p7, p8, p9, p10⟩
      rw [hnone]
  · intro r hr
    unfold solveAudioPassphrase at hr
    cases hsc : audioScanMain s.data with
    | none => rw [hsc] at hr; simp at hr
    | some m =>
      rw [hsc] at hr
      obtain ⟨m1, dd⟩ := m
      simp only [Option.some.injEq] at hr
      obtain ⟨k, hk, hearlier⟩ := audioScanMain_some hsc
      obtain ⟨w1, sp1, w2, sp2, rest, heq, hm1, p1, p2, p3, p4, p5, p6, p7, p8, p9, p10⟩ :=
        matchTwoWordsAt_sound hk
      refine ⟨k, w1, sp1, w2, sp2, dd, rest, heq, ?_, p1, p2, p3, p4, p5, p6, p7, p8, p9, p10, ?_⟩
      · intro j hj htwp
        have hcomp := matchTwoWordsAt_complete htwp
        rw [hearlier j hj] at hcomp
        simp at hcomp
      · rw [← hr, hm1]

/-- C7 counterexample: the visible text `"go now 123"` contains two
lowercase words followed by a 3-digit number — the claim's pattern, as
the spec-modelled matcher certifies — yet `solveAudioPassphrase` of
`index.js` returns `null`, because its actual regex requires two words of
at least three letters each. -/
theorem c7_counterexample :
    specAudioHasPhrase "go now 123".data = true ∧
    solveAudioPassphrase "go now 123" = none := ⟨rfl, rfl⟩

/-- C7 witness: on `"ok hey there 123"` the characterization applies and
produces the decomposition of the returned phrase `"hey there 123"`. -/
theorem c7_audio_characterization_witness :
    ∃ k w1 sp1 w2 sp2 d rest,
      ("ok hey there 123" : String).data.drop k = w1 ++ sp1 ++ w2 ++ sp2 ++ d ++ rest ∧
      (∀ j < k, ¬ TwoWordPhrase (("ok hey there 123" : String).data.drop j)) ∧
      3 ≤ w1.length ∧ w1.all isAsciiLetter = true ∧
      sp1 ≠ [] ∧ sp1.all isJsWs = true ∧
      3 ≤ w2.length ∧ w2.all isAsciiLetter = true ∧
      sp2 ≠ [] ∧ sp2.all isJsWs = true ∧
      d.length = 3 ∧ d.all isAsciiDigit = true ∧
      "hey there 123" = String.mk ((w1 ++ sp1 ++ w2).map jsLowerChar) ++ " " ++ String.mk d :=
  (c7_audio_characterization "ok hey there 123").2 "hey there 123" rfl
